import Mathlib

/-!
Verification development for the AEGIS trust-adaptive execution engine.

This file gives a shallow embedding of the core of the AEGIS system
(src/aegis): the AST, the sandboxed interpreter together with the runtime
monitor hooks it calls, the static analyzer, the AST optimizer, the trust
manager, the code cache, the rollback handler and the execution pipeline.
Theorems at the end settle the specification claims against this embedding.

Modelling conventions:
* Python floats (trust scores, thresholds) are modelled as exact rationals;
  no claim in scope depends on binary floating-point rounding.
* Wall-clock quantities (execution_time, compilation_time, rollback_time,
  performance statistics) are not modelled; logical `Nat` timestamps replace
  `datetime.now()` where order or age matters.
* Python dicts are modelled as insertion-ordered association lists, which
  preserves `min(...)` tie-breaking and iteration-order behaviour.
* Exceptions are modelled with `Except`; a function that mutates state and
  may raise returns a pair of the `Except` outcome and the updated state,
  mirroring the fact that Python mutations survive a raised exception.
-/

/- Batteries marks the rational-number operations irreducible, which stops
`decide` from evaluating concrete runs of the model; restore the default
reducibility so closed executions can be checked by computation. -/
set_option allowUnsafeReducibility true in
attribute [semireducible] Rat.add Rat.sub Rat.mul Rat.inv Rat.div Rat.ofScientific

deriving instance DecidableEq for Except

namespace Aegis

/-! ### AST (src/aegis/ast/nodes.py)

Expression nodes are `IntegerNode`, `IdentifierNode` and `BinaryOpNode`;
statement nodes are `AssignmentNode` (identifier is a plain string) and
`PrintNode` (identifier is a plain string).  Operators are kept as strings
as in the source, where unknown operators reach a dedicated error branch. -/

inductive Expr where
| intLit (value : Int)
| ident (name : String)
| binOp (left : Expr) (operator : String) (right : Expr)
deriving Repr, DecidableEq

inductive Stmt where
| assign (identifier : String) (expression : Expr)
| print (identifier : String)
deriving Repr, DecidableEq

/-! ### Security violations and execution metrics (src/aegis/runtime/monitor.py) -/

/-- SecurityViolation: violation_type and message (the context snapshot and
timestamp carried by the Python exception are not read by any claim). -/
structure Violation where
  violationType : String
  message : String
deriving Repr, DecidableEq

/-- ExecutionMetrics.  Wall-clock `execution_time` is kept as a rational
input (it feeds the trust-score bonus); the interpreter model leaves it 0. -/
structure Metrics where
  instructionCount : Nat := 0
  memoryUsage : Nat := 0
  executionTime : Rat := 0
  operationsPerformed : List String := []
  violationsDetected : List Violation := []
  variablesAccessed : List String := []
  arithmeticOperations : Nat := 0
  assignmentOperations : Nat := 0
  printOperations : Nat := 0
  optimizationApplied : Bool := false
  cacheHit : Bool := false
  speedupFactor : Rat := 1
deriving Repr, DecidableEq

/-- ExecutionMetrics.add_operation. -/
def Metrics.addOperation (m : Metrics) (operationType details : String) : Metrics :=
  let m := { m with
    instructionCount := m.instructionCount + 1,
    operationsPerformed := m.operationsPerformed ++ [operationType ++ ": " ++ details] }
  if operationType == "arithmetic" then
    { m with arithmeticOperations := m.arithmeticOperations + 1 }
  else if operationType == "assignment" then
    { m with assignmentOperations := m.assignmentOperations + 1 }
  else if operationType == "print" then
    { m with printOperations := m.printOperations + 1 }
  else m

/-- ExecutionMetrics.add_variable_access (set-like append). -/
def Metrics.addVariableAccess (m : Metrics) (variableName : String) : Metrics :=
  if m.variablesAccessed.contains variableName then m
  else { m with variablesAccessed := m.variablesAccessed ++ [variableName] }

/-! ### RuntimeMonitor (src/aegis/runtime/monitor.py)

The Python monitor invokes a registered rollback callback while raising a
violation.  The model records each would-be invocation in `callbackLog`;
the pipeline model drains the log right after the run.  Nothing reads the
stores touched by the callback during a run, so deferring the effects is
observationally equivalent to the immediate mutation done in Python. -/

structure MonitorState where
  currentMetrics : Option Metrics := none
  executionHistory : List Metrics := []
  violationThreshold : Nat := 1000
  memoryThreshold : Nat := 1048576
  isMonitoring : Bool := false
  rollbackRegistered : Bool := false
  currentExecutionMode : String := "sandboxed"
  currentCodeHash : Option String := none
  callbackLog : List (List Violation × String) := []
deriving Repr, DecidableEq

/-- RuntimeMonitor.check_violations: instruction-count and (simulated)
memory checks over the current metrics. -/
def MonitorState.checkViolations (mon : MonitorState) : List Violation :=
  match mon.currentMetrics with
  | none => []
  | some met =>
    let c := met.instructionCount
    let t := mon.violationThreshold
    let u := met.memoryUsage
    let mt := mon.memoryThreshold
    (if c > t then
      [⟨"instruction_limit", s!"Instruction count {c} exceeds limit {t}"⟩] else [])
    ++ (if u > mt then
      [⟨"memory_limit", s!"Memory usage {u} exceeds limit {mt}"⟩] else [])

/-- Python truthiness of the monitor's `current_code_hash` field
(`None` and the empty string are falsy). -/
def pyTruthyHash : Option String → Bool
| none => false
| some s => !s.isEmpty

inductive RunError where
| runtimeFault (message : String)
| securityViolation (violation : Violation)
deriving Repr, DecidableEq

/-- Append freshly detected violations to the current metrics and record a
rollback-callback invocation when the callback would fire (the guard only
reads fields the metrics update leaves untouched). -/
def MonitorState.absorbViolations (mon : MonitorState) (vs : List Violation) : MonitorState :=
  if mon.rollbackRegistered && mon.currentExecutionMode == "optimized"
      && pyTruthyHash mon.currentCodeHash then
    { mon with
        currentMetrics := mon.currentMetrics.map
          (fun met => { met with violationsDetected := met.violationsDetected ++ vs }),
        callbackLog := mon.callbackLog ++ [(vs, mon.currentCodeHash.getD "")] }
  else
    { mon with
        currentMetrics := mon.currentMetrics.map
          (fun met => { met with violationsDetected := met.violationsDetected ++ vs }) }

/-- RuntimeMonitor._check_violations: on detection, extend metrics, maybe
invoke the rollback callback, and raise the first violation. -/
def MonitorState.checkViolationsRaise (mon : MonitorState) :
    Except RunError Unit × MonitorState :=
  match mon.checkViolations with
  | [] => (.ok (), mon)
  | v :: vs =>
    let mon := mon.absorbViolations (v :: vs)
    (.error (.securityViolation v), mon)

/-- RuntimeMonitor.record_operation. -/
def MonitorState.recordOperation (mon : MonitorState) (operation details : String) :
    Except RunError Unit × MonitorState :=
  match mon.currentMetrics with
  | none => (.ok (), mon)
  | some met =>
    if mon.isMonitoring then
      let mon := { mon with currentMetrics := some (met.addOperation operation details) }
      mon.checkViolationsRaise
    else (.ok (), mon)

/-- RuntimeMonitor.record_variable_access. -/
def MonitorState.recordVariableAccess (mon : MonitorState) (variableName accessType : String) :
    Except RunError Unit × MonitorState :=
  match mon.currentMetrics with
  | none => (.ok (), mon)
  | some met =>
    if mon.isMonitoring then
      let mon := { mon with currentMetrics := some (met.addVariableAccess variableName) }
      mon.recordOperation "variable_access" (accessType ++ " " ++ variableName)
    else (.ok (), mon)

/-- RuntimeMonitor._raise_violation: append one violation, maybe invoke the
rollback callback, raise it. -/
def MonitorState.raiseViolation (mon : MonitorState) (violationType message : String) :
    Except RunError Unit × MonitorState :=
  let v : Violation := ⟨violationType, message⟩
  let mon := mon.absorbViolations [v]
  (.error (.securityViolation v), mon)

/-- RuntimeMonitor.record_arithmetic_operation: records the operation and
raises `arithmetic_overflow` when the supplied result is outside the 32-bit
signed range. -/
def MonitorState.recordArithmeticOperation (mon : MonitorState)
    (operator : String) (left right result : Int) :
    Except RunError Unit × MonitorState :=
  if mon.isMonitoring then
    let l := left
    let r := right
    let d := result
    let o := operator
    match mon.recordOperation "arithmetic" s!"{l} {o} {r} = {d}" with
    | (.error e, mon) => (.error e, mon)
    | (.ok _, mon) =>
      if result > 2147483647 || result < -2147483648 then
        mon.raiseViolation "arithmetic_overflow" s!"Result {d} exceeds integer bounds"
      else (.ok (), mon)
  else (.ok (), mon)

/-- RuntimeMonitor.start_monitoring.  The per-run callback queue is reset
here (each Python run starts with no pending callback effects). -/
def MonitorState.startMonitoring (mon : MonitorState) :
    Except RunError Unit × MonitorState :=
  let mon := { mon with currentMetrics := some {}, isMonitoring := true, callbackLog := [] }
  mon.recordOperation "monitor_start" "Execution monitoring started"

/-- RuntimeMonitor.stop_monitoring.  The `monitor_stop` record can itself
raise a violation; in that case the history is not updated and the
monitoring flags are left as they were, exactly as in the source. -/
def MonitorState.stopMonitoring (mon : MonitorState) :
    Except RunError Unit × MonitorState :=
  match mon.currentMetrics with
  | some _ =>
    match mon.recordOperation "monitor_stop" "Execution monitoring stopped" with
    | (.error e, mon) => (.error e, mon)
    | (.ok _, mon) =>
      let hist := mon.executionHistory ++
        (match mon.currentMetrics with | some met => [met] | none => [])
      let hist := if hist.length > 100 then hist.drop (hist.length - 100) else hist
      (.ok (), { mon with executionHistory := hist, isMonitoring := false,
                          currentMetrics := none })
  | none =>
    (.ok (), { mon with isMonitoring := false, currentMetrics := none })

/-! ### ExecutionContext and SandboxedInterpreter
(src/aegis/interpreter/context.py, src/aegis/interpreter/interpreter.py) -/

/-- Per-run execution state: the ExecutionContext (variables, output
buffer), the interpreter's own operation counter and the attached monitor.
The context's mode tag and code-hash field are never read and are omitted. -/
structure ExecState where
  vars : List (String × Int) := []
  outputBuffer : List String := []
  operationCount : Nat := 0
  monitor : MonitorState := {}
deriving Repr, DecidableEq

/-- Update an association list in place, appending when the key is new
(Python dict assignment). -/
def setAssoc {α : Type} : List (String × α) → String → α → List (String × α)
| [], name, value => [(name, value)]
| (k, v) :: rest, name, value =>
  if k == name then (k, value) :: rest else (k, v) :: setAssoc rest name value

def maxInteger : Int := 2147483647
def minInteger : Int := -2147483648
def maxOperations : Nat := 10000

/-- Error-propagating sequencing over state-passing computations. -/
def bindE {σ α β : Type} (step : Except RunError β × σ)
    (k : β → σ → Except RunError α × σ) : Except RunError α × σ :=
  match step with
  | (.error e, st) => (.error e, st)
  | (.ok b, st) => k b st

/-- Lift a monitor operation to the full execution state. -/
def liftMon (f : MonitorState → Except RunError Unit × MonitorState) (st : ExecState) :
    Except RunError Unit × ExecState :=
  let (r, mon) := f st.monitor
  (r, { st with monitor := mon })

/-- SandboxedInterpreter._check_operation_limit. -/
def checkOperationLimit (st : ExecState) : Except RunError Unit × ExecState :=
  let st := { st with operationCount := st.operationCount + 1 }
  if st.operationCount > maxOperations then
    let n := maxOperations
    (.error (.runtimeFault s!"Operation limit exceeded ({n})"), st)
  else (.ok (), st)

/-- SandboxedInterpreter._check_integer_bounds. -/
def checkIntegerBounds (value : Int) (st : ExecState) : Except RunError Unit × ExecState :=
  if value < minInteger || value > maxInteger then
    let d := value
    (.error (.runtimeFault s!"Integer overflow: {d} is out of bounds"), st)
  else (.ok (), st)

/-- Tail of SandboxedInterpreter.visit_binary_op once the result is
computed: bounds check first, then the monitor's arithmetic record. -/
def finishBinOp (operator : String) (leftVal rightVal result : Int) (st : ExecState) :
    Except RunError Int × ExecState :=
  bindE (checkIntegerBounds result st) fun _ st =>
  bindE (liftMon (·.recordArithmeticOperation operator leftVal rightVal result) st) fun _ st =>
  (.ok result, st)

/-- Expression evaluation: visit_integer, visit_identifier and
visit_binary_op of SandboxedInterpreter.  Division is Python's floor
division `//`, hence `Int.fdiv`. -/
def evalExpr : Expr → ExecState → Except RunError Int × ExecState
| .intLit value, st =>
  bindE (checkOperationLimit st) fun _ st =>
  bindE (checkIntegerBounds value st) fun _ st =>
  let d := value
  bindE (liftMon (·.recordOperation "literal" s!"integer {d}") st) fun _ st =>
  (.ok value, st)
| .ident name, st =>
  bindE (checkOperationLimit st) fun _ st =>
  bindE (liftMon (·.recordVariableAccess name "read") st) fun _ st =>
  match st.vars.lookup name with
  | some v => (.ok v, st)
  | none => (.error (.runtimeFault ("Undefined variable: " ++ name)), st)
| .binOp left operator right, st =>
  bindE (checkOperationLimit st) fun _ st =>
  bindE (evalExpr left st) fun leftVal st =>
  bindE (evalExpr right st) fun rightVal st =>
  if operator == "+" then finishBinOp operator leftVal rightVal (leftVal + rightVal) st
  else if operator == "-" then finishBinOp operator leftVal rightVal (leftVal - rightVal) st
  else if operator == "*" then finishBinOp operator leftVal rightVal (leftVal * rightVal) st
  else if operator == "/" then
    if rightVal == 0 then (.error (.runtimeFault "Division by zero"), st)
    else finishBinOp operator leftVal rightVal (Int.fdiv leftVal rightVal) st
  else
    let o := operator
    (.error (.runtimeFault s!"Unknown operator: {o}"), st)

/-- Statement execution: visit_assignment and visit_print. -/
def execStmt : Stmt → ExecState → Except RunError Unit × ExecState
| .assign identifier expression, st =>
  bindE (checkOperationLimit st) fun _ st =>
  bindE (liftMon (·.recordOperation "assignment" (identifier ++ " = <expression>")) st) fun _ st =>
  bindE (evalExpr expression st) fun value st =>
  bindE (checkIntegerBounds value st) fun _ st =>
  let st := { st with vars := setAssoc st.vars identifier value }
  bindE (liftMon (·.recordVariableAccess identifier "write") st) fun _ st =>
  (.ok (), st)
| .print identifier, st =>
  bindE (checkOperationLimit st) fun _ st =>
  bindE (liftMon (·.recordOperation "print" ("print " ++ identifier)) st) fun _ st =>
  match st.vars.lookup identifier with
  | some value =>
    bindE (liftMon (·.recordVariableAccess identifier "read") st) fun _ st =>
    (.ok (), { st with outputBuffer := st.outputBuffer ++ [toString value] })
  | none =>
    (.error (.runtimeFault ("Cannot print undefined variable: " ++ identifier)), st)

/-- The statement loop of SandboxedInterpreter.execute (each iteration
performs its own operation-limit check before dispatching). -/
def execStmts : List Stmt → ExecState → Except RunError Unit × ExecState
| [], st => (.ok (), st)
| stmt :: rest, st =>
  bindE (checkOperationLimit st) fun _ st =>
  bindE (execStmt stmt st) fun _ st =>
  execStmts rest st

/-- SandboxedInterpreter.execute: reset the operation counter, start
monitoring, run the statements, and stop monitoring in a `finally` block.
A violation raised by `stop_monitoring` replaces the in-flight error. -/
def interpExecute (ast : List Stmt) (st : ExecState) : Except RunError Unit × ExecState :=
  let st := { st with operationCount := 0 }
  match liftMon MonitorState.startMonitoring st with
  | (.error e, st) => (.error e, st)
  | (.ok _, st) =>
    let (r, st) := execStmts ast st
    match liftMon MonitorState.stopMonitoring st with
    | (.error e2, st) => (.error e2, st)
    | (.ok _, st) => (r, st)

/-! ### StaticAnalyzer (src/aegis/interpreter/static_analyzer.py) -/

structure AnalyzerState where
  definedVariables : List String := []
  usedVariables : List String := []
  errors : List String := []
  warnings : List String := []
  expressionDepth : Nat := 0
deriving Repr, DecidableEq

def maxExpressionDepth : Nat := 10

/-- Set-like insertion used for the analyzer's Python sets. -/
def insertSet (l : List String) (x : String) : List String :=
  if l.contains x then l else l ++ [x]

/-- StaticAnalyzer._is_valid_identifier. -/
def isValidIdentifier (name : String) : Bool :=
  match name.data with
  | [] => false
  | c :: rest =>
    (c.isAlpha || c == '_') && rest.all (fun ch => ch.isAlphanum || ch == '_')
      && name != "print"

/-- StaticAnalyzer's expression visitors (visit_integer, visit_identifier,
visit_binary_op).  When the depth limit is hit the Python method returns
before entering its try/finally, so the depth counter is not decremented
on that path; the model reproduces this. -/
def analyzeExpr : Expr → AnalyzerState → AnalyzerState
| .intLit value, s =>
  if value < -2147483648 || value > 2147483647 then
    let d := value
    { s with warnings := s.warnings ++ [s!"Integer value {d} may cause overflow"] }
  else s
| .ident name, s =>
  let s :=
    if s.definedVariables.contains name then s
    else { s with errors := s.errors ++ ["Undefined variable: " ++ name] }
  let s := { s with usedVariables := insertSet s.usedVariables name }
  if isValidIdentifier name then s
  else { s with errors := s.errors ++ ["Invalid identifier format: " ++ name] }
| .binOp left operator right, s =>
  let s := { s with expressionDepth := s.expressionDepth + 1 }
  if s.expressionDepth > maxExpressionDepth then
    { s with errors := s.errors ++ ["Expression too deeply nested (max depth: 10)"] }
  else
    let s := analyzeExpr left s
    let s := analyzeExpr right s
    let s :=
      if operator == "/" then
        match right with
        | .intLit rv =>
          if rv == 0 then { s with errors := s.errors ++ ["Division by zero detected"] }
          else s
        | .ident n =>
          { s with warnings := s.warnings ++
            ["Potential division by zero with variable '" ++ n ++ "'"] }
        | _ => s
      else s
    let s :=
      match left, right with
      | .intLit lv, .intLit rv =>
        if operator == "*" && (lv > 1000000 || rv > 1000000) then
          { s with warnings := s.warnings ++ ["Potential integer overflow in multiplication"] }
        else if operator == "+" && lv + rv > 2147483647 then
          { s with warnings := s.warnings ++ ["Potential integer overflow in addition"] }
        else s
      | _, _ => s
    { s with expressionDepth := s.expressionDepth - 1 }

/-- StaticAnalyzer's statement visitors (visit_assignment, visit_print).
An assignment analyzes its right-hand side before defining the target. -/
def analyzeStmt : Stmt → AnalyzerState → AnalyzerState
| .assign identifier expression, s =>
  let s := analyzeExpr expression s
  { s with definedVariables := insertSet s.definedVariables identifier }
| .print identifier, s =>
  let s :=
    if s.definedVariables.contains identifier then s
    else { s with errors := s.errors ++ ["Undefined variable: " ++ identifier] }
  let s := { s with usedVariables := insertSet s.usedVariables identifier }
  if isValidIdentifier identifier then s
  else { s with errors := s.errors ++
    ["Invalid identifier in print statement: " ++ identifier] }

/-- StaticAnalyzer.analyze, up to the final error aggregation: the resulting
analyzer state after the single forward pass.  `analyze` raises
`AnalysisError` exactly when `errors` is non-empty. -/
def analyzeProgram (ast : List Stmt) : AnalyzerState :=
  ast.foldl (fun s stmt => analyzeStmt stmt s) {}

/-! ### ASTOptimizer (src/aegis/compiler/optimizer.py)

The optimizer's first pass (`_collect_variable_usage`) only fills
`used_variables`, which the rewriting pass never reads; it is omitted.
`dead_code_elimination` is declared but never set by any visitor. -/

structure OptFlags where
  constantFolding : Bool := false
  deadCodeElimination : Bool := false
  variablePropagation : Bool := false
  expressionSimplification : Bool := false
deriving Repr, DecidableEq

structure OptState where
  flags : OptFlags := {}
  constants : List (String × Int) := []
deriving Repr, DecidableEq

/-- ASTOptimizer._simplify_expression. -/
def simplifyExpression (left : Expr) (operator : String) (right : Expr) : Expr :=
  let leftCases :=
    match left with
    | .intLit lv =>
      if operator == "+" && lv == 0 then right
      else if operator == "*" && lv == 1 then right
      else if operator == "*" && lv == 0 then .intLit 0
      else .binOp left operator right
    | _ => .binOp left operator right
  match right with
  | .intLit rv =>
    if operator == "+" && rv == 0 then left
    else if operator == "-" && rv == 0 then left
    else if operator == "*" && rv == 1 then left
    else if operator == "*" && rv == 0 then .intLit 0
    else if operator == "/" && rv == 1 then left
    else leftCases
  | _ => leftCases

/-- ASTOptimizer's expression visitors (visit_integer, visit_identifier,
visit_binary_op): constant propagation, constant folding (leaving a literal
division by zero unfolded), then algebraic simplification.  The
simplification flag is set when the simplified node differs structurally
from the original node, as with Python dataclass equality. -/
def optVisitExpr : Expr → OptState → Expr × OptState
| .intLit value, s => (.intLit value, s)
| .ident name, s =>
  match s.constants.lookup name with
  | some v => (.intLit v, { s with flags := { s.flags with variablePropagation := true } })
  | none => (.ident name, s)
| .binOp left operator right, s =>
  let (l, s) := optVisitExpr left s
  let (r, s) := optVisitExpr right s
  match l, r with
  | .intLit lv, .intLit rv =>
    if operator == "+" then
      (.intLit (lv + rv), { s with flags := { s.flags with constantFolding := true } })
    else if operator == "-" then
      (.intLit (lv - rv), { s with flags := { s.flags with constantFolding := true } })
    else if operator == "*" then
      (.intLit (lv * rv), { s with flags := { s.flags with constantFolding := true } })
    else if operator == "/" then
      if rv != 0 then
        (.intLit (Int.fdiv lv rv), { s with flags := { s.flags with constantFolding := true } })
      else
        (.binOp l operator r, s)
    else (.binOp l operator r, s)
  | _, _ =>
    let optimized := simplifyExpression l operator r
    if optimized != .binOp left operator right then
      (optimized, { s with flags := { s.flags with expressionSimplification := true } })
    else
      (.binOp l operator r, s)

/-- ASTOptimizer's statement visitors (visit_assignment, visit_print).
An assignment whose optimized right-hand side is a literal records the
constant; a print of a known constant only sets the propagation flag. -/
def optVisitStmt : Stmt → OptState → Stmt × OptState
| .assign identifier expression, s =>
  let (optimizedExpr, s) := optVisitExpr expression s
  let s :=
    match optimizedExpr with
    | .intLit v =>
      { s with constants := setAssoc s.constants identifier v,
               flags := { s.flags with constantFolding := true } }
    | _ => s
  (.assign identifier optimizedExpr, s)
| .print identifier, s =>
  match s.constants.lookup identifier with
  | some _ =>
    (.print identifier, { s with flags := { s.flags with variablePropagation := true } })
  | none => (.print identifier, s)

/-- The optimizer's second pass over the statement list. -/
def optimizeStmts : List Stmt → OptState → List Stmt × OptState
| [], s => ([], s)
| stmt :: rest, s =>
  let (n, s) := optVisitStmt stmt s
  let (ns, s) := optimizeStmts rest s
  (n :: ns, s)

structure OptimizationResult where
  optimizedAst : List Stmt
  optimizationFlags : OptFlags
  originalSize : Nat
  optimizedSize : Nat
deriving Repr, DecidableEq

/-- ASTOptimizer.optimize (compilation_time is wall clock, not modelled;
no visitor returns `None`, so the result keeps every statement). -/
def optimize (ast : List Stmt) : OptimizationResult :=
  let (nodes, s) := optimizeStmts ast {}
  ⟨nodes, s.flags, ast.length, nodes.length⟩

/-! ### TrustScore and TrustManager (src/aegis/trust/trust_manager.py)

The bounded `trust_history` audit list and the file persistence layer are
not modelled: no claim reads them, and persistence failures are swallowed
in the source.  Timestamps are logical `Nat` ticks. -/

structure TrustScore where
  codeHash : String
  currentScore : Rat := 0
  executionCount : Nat := 0
  successfulExecutions : Nat := 0
  violationCount : Nat := 0
  lastExecution : Option Nat := none
  lastViolation : Option Nat := none
  firstExecution : Option Nat := none
deriving Repr, DecidableEq

/-- TrustScore._increase_trust: 0.1 base, +0.05 when successful_executions
exceeds 5, +0.02 for fewer than 100 instructions, +0.02 for execution
faster than 0.1s, capped at 10. -/
def TrustScore.increaseTrust (ts : TrustScore) (metrics : Metrics) : TrustScore :=
  let increment : Rat := 1/10
  let increment := if ts.successfulExecutions > 5 then increment + 1/20 else increment
  let increment := if metrics.instructionCount < 100 then increment + 1/50 else increment
  let increment := if metrics.executionTime < 1/10 then increment + 1/50 else increment
  { ts with currentScore := min 10 (ts.currentScore + increment) }

/-- TrustScore._decrease_trust: 0.5 base, plus 0.2 per violation beyond the
first, floored at 0. -/
def TrustScore.decreaseTrust (ts : TrustScore) : TrustScore :=
  let decrement : Rat := 1/2
  let decrement :=
    if ts.violationCount > 1 then decrement + (1/5) * ((ts.violationCount : Rat) - 1)
    else decrement
  { ts with currentScore := max 0 (ts.currentScore - decrement) }

/-- TrustScore.add_execution_result: a run counts as a violation when the
caller says so or when the metrics already carry detected violations; note
that a violating run sets `last_violation` and `last_execution` to the same
timestamp. -/
def TrustScore.addExecutionResult (ts : TrustScore) (metrics : Metrics)
    (hadViolations : Bool) (now : Nat) : TrustScore :=
  let ts := { ts with executionCount := ts.executionCount + 1, lastExecution := some now }
  let ts := if ts.firstExecution.isNone then { ts with firstExecution := some now } else ts
  if hadViolations || metrics.violationsDetected.length > 0 then
    let ts := { ts with violationCount := ts.violationCount + 1, lastViolation := some now }
    ts.decreaseTrust
  else
    let ts := { ts with successfulExecutions := ts.successfulExecutions + 1 }
    ts.increaseTrust metrics

/-- TrustScore.get_trust_level. -/
def TrustScore.getTrustLevel (ts : TrustScore) : String :=
  if ts.currentScore ≥ 2 then "HIGH"
  else if ts.currentScore ≥ 1 then "MEDIUM"
  else if ts.currentScore ≥ 1/2 then "LOW"
  else "NONE"

/-- TrustScore.is_eligible_for_optimization: the recency test only rejects
when both timestamps are present and the violation is strictly more recent
than the execution. -/
def TrustScore.isEligibleForOptimization (ts : TrustScore) (threshold : Rat) : Bool :=
  if ts.currentScore < threshold then false
  else if ts.executionCount < 3 then false
  else if (match ts.lastViolation, ts.lastExecution with
           | some v, some e => decide (v > e)
           | _, _ => false) then false
  else if (ts.successfulExecutions : Rat) / (ts.executionCount : Rat) < 4/5 then false
  else true

/-- TrustScore.reset_trust: the score is erased, the counters are kept. -/
def TrustScore.resetTrust (ts : TrustScore) : TrustScore :=
  { ts with currentScore := 0 }

/-- TrustManager.get_trust_score: fetch the record, creating a fresh one
(and storing it) when the hash is new. -/
def getTrustScore (scores : List (String × TrustScore)) (codeHash : String) :
    TrustScore × List (String × TrustScore) :=
  match scores.lookup codeHash with
  | some ts => (ts, scores)
  | none =>
    let ts : TrustScore := { codeHash := codeHash }
    (ts, scores ++ [(codeHash, ts)])

/-- TrustManager.update_trust (persistence omitted): returns the updated
score and the updated store. -/
def updateTrust (scores : List (String × TrustScore)) (codeHash : String)
    (metrics : Metrics) (violations : List Violation) (now : Nat) :
    Rat × List (String × TrustScore) :=
  let (ts, scores) := getTrustScore scores codeHash
  let hadViolations := !violations.isEmpty
  let ts := ts.addExecutionResult metrics hadViolations now
  (ts.currentScore, setAssoc scores codeHash ts)

/-- TrustManager.is_trusted_for_optimization (the lookup can create a fresh
record, so the updated store is returned as well). -/
def isTrustedForOptimization (optimizationEnabled : Bool) (trustThreshold : Rat)
    (scores : List (String × TrustScore)) (codeHash : String) :
    Bool × List (String × TrustScore) :=
  if !optimizationEnabled then (false, scores)
  else
    let (ts, scores) := getTrustScore scores codeHash
    (ts.isEligibleForOptimization trustThreshold, scores)

/-- TrustManager.revoke_trust_for_violation: reset an existing record's
score to 0, or store a fresh reset record for an unknown hash. -/
def revokeTrustForViolation (scores : List (String × TrustScore)) (codeHash : String) :
    List (String × TrustScore) :=
  match scores.lookup codeHash with
  | some ts => setAssoc scores codeHash ts.resetTrust
  | none =>
    let ts : TrustScore := { codeHash := codeHash }
    scores ++ [(codeHash, ts.resetTrust)]

/-! ### CodeCache (src/aegis/compiler/cache.py)

Entries are kept in insertion order (Python dict); `min` over the keys
picks the first entry with the smallest `last_accessed`.  Ages compare a
logical `now` against creation ticks; `compilation_time` and the running
performance statistics are wall clock and omitted. -/

structure CachedCode where
  codeHash : String
  originalAst : List Stmt
  optimizedAst : List Stmt
  createdAt : Nat
  lastAccessed : Nat
  accessCount : Nat := 0
  optimizationFlags : OptFlags := {}
deriving Repr, DecidableEq

structure CodeCache where
  entries : List CachedCode := []
  maxSize : Nat := 100
  maxAge : Nat := 86400
  cacheHits : Nat := 0
  cacheMisses : Nat := 0
  evictions : Nat := 0
  compilations : Nat := 0
deriving Repr, DecidableEq

def cacheLookup (c : CodeCache) (codeHash : String) : Option CachedCode :=
  c.entries.find? (fun e => e.codeHash == codeHash)

/-- CodeCache._evict. -/
def cacheEvict (c : CodeCache) (codeHash : String) : CodeCache :=
  if (cacheLookup c codeHash).isSome then
    { c with entries := c.entries.filter (fun e => e.codeHash != codeHash),
             evictions := c.evictions + 1 }
  else c

/-- First entry with the smallest `last_accessed` (Python
`min(keys, key=...)` keeps the earliest of tied keys). -/
def lruEntry : List CachedCode → Option CachedCode
| [] => none
| e :: rest =>
  match lruEntry rest with
  | none => some e
  | some b => if b.lastAccessed < e.lastAccessed then some b else some e

/-- CodeCache._evict_lru. -/
def cacheEvictLru (c : CodeCache) : CodeCache :=
  match lruEntry c.entries with
  | none => c
  | some e => cacheEvict c e.codeHash

/-- CodeCache.get: miss on absence, lazy TTL eviction on read, recency and
counter bump on a hit (returning the refreshed entry). -/
def cacheGet (c : CodeCache) (codeHash : String) (now : Nat) :
    Option CachedCode × CodeCache :=
  match cacheLookup c codeHash with
  | none => (none, { c with cacheMisses := c.cacheMisses + 1 })
  | some e =>
    if now - e.createdAt > c.maxAge then
      let c := cacheEvict c codeHash
      (none, { c with cacheMisses := c.cacheMisses + 1 })
    else
      let e2 := { e with lastAccessed := now, accessCount := e.accessCount + 1 }
      let c := { c with
        entries := c.entries.map (fun x => if x.codeHash == codeHash then e2 else x),
        cacheHits := c.cacheHits + 1 }
      (some e2, c)

/-- CodeCache.put: evict the LRU entry when at capacity, then insert (a
Python dict assignment keeps an existing key's position). -/
def cachePut (c : CodeCache) (codeHash : String) (originalAst optimizedAst : List Stmt)
    (optimizationFlags : OptFlags) (now : Nat) : CodeCache :=
  let c := if c.entries.length ≥ c.maxSize then cacheEvictLru c else c
  let e : CachedCode :=
    { codeHash := codeHash, originalAst := originalAst, optimizedAst := optimizedAst,
      createdAt := now, lastAccessed := now, accessCount := 0,
      optimizationFlags := optimizationFlags }
  let c :=
    if (cacheLookup c codeHash).isSome then
      { c with entries := c.entries.map (fun x => if x.codeHash == codeHash then e else x) }
    else { c with entries := c.entries ++ [e] }
  { c with compilations := c.compilations + 1 }

/-- CodeCache.clear. -/
def cacheClear (c : CodeCache) (codeHash : String) : CodeCache :=
  if (cacheLookup c codeHash).isSome then
    { c with entries := c.entries.filter (fun e => e.codeHash != codeHash) }
  else c

/-! ### RollbackHandler (src/aegis/runtime/rollback.py)

Wall-clock fields (timestamp, rollback_time) are omitted; the captured
context snapshot is kept as the variable bindings only. -/

structure RollbackEvent where
  violationType : String
  codeHash : String
  details : String
  executionMode : String
  contextVariables : List (String × Int)
  violationCount : Nat
  trustScoreBefore : Rat
  trustScoreAfter : Rat
deriving Repr, DecidableEq

structure RollbackState where
  rollbackHistory : List RollbackEvent := []
  rollbackEnabled : Bool := true
  autoTrustRevocation : Bool := true
  maxRollbackHistory : Nat := 100
  totalRollbacks : Nat := 0
deriving Repr, DecidableEq

/-! ### AegisExecutionPipeline (src/aegis/pipeline.py) -/

structure PipelineState where
  monitor : MonitorState := {}
  trustScores : List (String × TrustScore) := []
  trustThreshold : Rat := 1
  optimizationEnabled : Bool := true
  cache : CodeCache := {}
  rollback : RollbackState := {}
  totalExecutions : Nat := 0
  successfulExecutions : Nat := 0
  optimizedExecutions : Nat := 0
  rollbackCount : Nat := 0
deriving Repr, DecidableEq

/-- One queued monitor rollback-callback invocation, i.e. the callback
defined in AegisExecutionPipeline._setup_integrations composed with
RollbackHandler.trigger_rollback and its registered trust-revocation and
cache-clear callbacks.  The monitor only queues an invocation when the
execution mode is "optimized", which the callback re-checks.  The context
snapshot of the interrupted run is not rebuilt here: no modelled run ever
reaches this code (see the C2 theorems), so the field is left empty. -/
def applyRollbackCallback (st : PipelineState) (entry : List Violation × String) :
    PipelineState :=
  match entry with
  | ([], _) => st
  | (v :: vs, codeHash) =>
    let (ts, trustScores) := getTrustScore st.trustScores codeHash
    let st := { st with trustScores := trustScores }
    if !st.rollback.rollbackEnabled then st
    else
      let st := { st with cache := cacheClear st.cache codeHash }
      let scoreBefore := ts.currentScore
      let st :=
        if st.rollback.autoTrustRevocation then
          { st with trustScores := revokeTrustForViolation st.trustScores codeHash }
        else st
      let scoreAfter :=
        if st.rollback.autoTrustRevocation then max 0 (scoreBefore - 1/2) else scoreBefore
      let ev : RollbackEvent :=
        { violationType := v.violationType, codeHash := codeHash, details := v.message,
          executionMode := "optimized", contextVariables := [],
          violationCount := (v :: vs).length,
          trustScoreBefore := scoreBefore, trustScoreAfter := scoreAfter }
      let hist := st.rollback.rollbackHistory ++ [ev]
      let hist :=
        if hist.length > st.rollback.maxRollbackHistory then
          hist.drop (hist.length - st.rollback.maxRollbackHistory)
        else hist
      let st := { st with rollback := { st.rollback with
        rollbackHistory := hist, totalRollbacks := st.rollback.totalRollbacks + 1 } }
      { st with rollbackCount := st.rollbackCount + 1 }

/-- OptimizedExecutor._calculate_speedup. -/
def calculateSpeedup (flags : OptFlags) : Rat :=
  2 + (if flags.constantFolding then 3/10 else 0)
    + (if flags.deadCodeElimination then 1/5 else 0)
    + (if flags.variablePropagation then 1/4 else 0)
    + (if flags.expressionSimplification then 3/20 else 0)

/-- Phase 4 of AegisExecutionPipeline.execute: fetch the trust record
(creating it when new) and choose the execution mode. -/
def pipelinePhase4 (st : PipelineState) (sourceHash : String) : PipelineState × String :=
  let (_, trustScores) := getTrustScore st.trustScores sourceHash
  let st := { st with trustScores := trustScores }
  let (isTrusted, trustScores2) :=
    isTrustedForOptimization st.optimizationEnabled st.trustThreshold st.trustScores sourceHash
  ({ st with trustScores := trustScores2 },
   if isTrusted then "optimized" else "sandboxed")

/-- Phase 5 of AegisExecutionPipeline.execute: run the chosen executor on a
fresh ExecutionContext.  The sandboxed branch is SandboxedInterpreter
.execute; the optimized branch is OptimizedExecutor.execute_optimized
(cache lookup, compile-and-store on a miss, then the same interpreter on
the optimized AST, and on success a fresh metrics object describing the
optimization).  Note that pipeline.execute never calls the monitor's
set_execution_mode, so the monitor keeps whatever mode it already had. -/
def pipelinePhase5 (program : List Stmt) (sourceHash : String) (now : Nat)
    (st : PipelineState) (executionMode : String) :
    Except RunError Unit × ExecState × Option Metrics × CodeCache × Nat :=
  let es0 : ExecState := { monitor := st.monitor }
  if executionMode == "sandboxed" then
    let (r, es) := interpExecute program es0
    (r, es, none, st.cache, st.optimizedExecutions)
  else
    let optimizedExecutions := st.optimizedExecutions + 1
    let (cachedCode, cache) := cacheGet st.cache sourceHash now
    let (optimizedAst, optimizationFlags, cache) :=
      match cachedCode with
      | none =>
        let result := optimize program
        let cache := cachePut cache sourceHash program result.optimizedAst
          result.optimizationFlags now
        (result.optimizedAst, result.optimizationFlags, cache)
      | some cc => (cc.optimizedAst, cc.optimizationFlags, cache)
    let (r, es) := interpExecute optimizedAst es0
    let builtMetrics : Metrics :=
      { instructionCount := optimizedAst.length, optimizationApplied := true,
        cacheHit := cachedCode.isSome, speedupFactor := calculateSpeedup optimizationFlags }
    (r, es, some builtMetrics, cache, optimizedExecutions)

/-- Phases 1-5 of AegisExecutionPipeline.execute after a passing analysis:
count the execution, choose the mode, run the executor. -/
def pipelineAfterAnalysis (program : List Stmt) (sourceHash : String) (now : Nat)
    (st : PipelineState) :
    Except RunError Unit × ExecState × Option Metrics × CodeCache × Nat
      × PipelineState × String :=
  let st := { st with totalExecutions := st.totalExecutions + 1 }
  let (st2, executionMode) := pipelinePhase4 st sourceHash
  let (r, es, builtMetrics, cache, optimizedExecutions) :=
    pipelinePhase5 program sourceHash now st2 executionMode
  (r, es, builtMetrics, cache, optimizedExecutions, st2, executionMode)

/-- The ExecutionResult record (execution_time is wall clock, omitted). -/
structure ExecResult where
  success : Bool
  output : List String
  executionMode : String
  trustScore : Rat
  trustLevel : String
  metrics : Metrics
  violations : List Violation
  rollbackEvents : List RollbackEvent
  errorMessage : Option String := none
deriving Repr, DecidableEq

/-- Exceptions that escape pipeline construction or pipeline.execute
uncaught: `AttributeError` from a missing method, and the static
analyzer's `AnalysisError`, which is a plain `Exception` subclass and is
not in pipeline.execute's `except (LexicalError, SyntaxError,
SemanticError, RuntimeError)` clause. -/
inductive PyError where
| attributeError (className attrName : String)
| analysisError (message : String)
deriving Repr, DecidableEq

/-- Phases 6-7 of AegisExecutionPipeline.execute: the trust update always
runs, the success counter is incremented, and the result reports
success.  The trust level is read from the trust record after the update
(the Python code holds a reference to the mutated object). -/
def pipelineFinish (st : PipelineState) (sourceHash : String) (now : Nat)
    (executionMode : String) (output : List String) (metrics : Metrics)
    (violations : List Violation) (rollbackEvents : List RollbackEvent) :
    ExecResult × PipelineState :=
  let (trustScore, trustScores) := updateTrust st.trustScores sourceHash metrics violations now
  let st := { st with trustScores := trustScores,
                      successfulExecutions := st.successfulExecutions + 1 }
  let (tsObj, trustScores2) := getTrustScore st.trustScores sourceHash
  let st := { st with trustScores := trustScores2 }
  ({ success := true, output := output, executionMode := executionMode,
     trustScore := trustScore, trustLevel := tsObj.getTrustLevel, metrics := metrics,
     violations := violations, rollbackEvents := rollbackEvents, errorMessage := none }, st)

/-- AegisExecutionPipeline.execute.  A failing static analysis raises
`AnalysisError` out of the method uncaught (the pipeline state mutated so
far is unreachable behind the propagating exception and is dropped).  A
`RuntimeError` from the interpreter is caught and produces a failure
result; a `SecurityViolation` is caught by the inner handler, which reads
the rollback history for this hash and the last archived metrics. -/
def pipelineExecute (program : List Stmt) (sourceHash : String) (now : Nat)
    (st : PipelineState) : Except PyError (ExecResult × PipelineState) :=
  let a := analyzeProgram program
  if !a.errors.isEmpty then
    .error (.analysisError (String.intercalate "; " a.errors))
  else
    match pipelineAfterAnalysis program sourceHash now st with
    | (r, es, builtMetrics, cache, optimizedExecutions, st2, executionMode) =>
      let st3 := { st2 with monitor := es.monitor, cache := cache,
                            optimizedExecutions := optimizedExecutions }
      let st3 := es.monitor.callbackLog.foldl applyRollbackCallback st3
      let st3 := { st3 with monitor := { st3.monitor with callbackLog := [] } }
      match r with
      | .error (.runtimeFault msg) =>
        .ok ({ success := false, output := [], executionMode := "failed", trustScore := 0,
               trustLevel := "NONE", metrics := {}, violations := [], rollbackEvents := [],
               errorMessage := some msg }, st3)
      | .error (.securityViolation v) =>
        let violations := [v]
        let rollbackEvents :=
          st3.rollback.rollbackHistory.filter (fun ev => ev.codeHash == sourceHash)
        let hist := st3.monitor.executionHistory
        let baseMetrics := hist.getLast?.getD {}
        let metrics := { baseMetrics with
          violationsDetected := baseMetrics.violationsDetected ++ violations }
        let hist2 := if hist.isEmpty then hist else hist.dropLast ++ [metrics]
        let st3 := { st3 with monitor := { st3.monitor with executionHistory := hist2 } }
        .ok (pipelineFinish st3 sourceHash now executionMode es.outputBuffer metrics
          violations rollbackEvents)
      | .ok _ =>
        let metrics :=
          match builtMetrics with
          | some m => m
          | none => st3.monitor.executionHistory.getLast?.getD {}
        .ok (pipelineFinish st3 sourceHash now executionMode es.outputBuffer metrics [] [])

/-- The methods defined in the body of class OptimizedExecutor
(src/aegis/compiler/optimizer.py). -/
def optimizedExecutorMethods : List String :=
  ["__init__", "execute_optimized", "_execute_optimized_ast", "_calculate_speedup",
   "get_optimization_stats", "clear_cache", "cleanup_cache"]

/-- AegisExecutionPipeline._setup_integrations, modelling Python attribute
lookup on the OptimizedExecutor instance: the trust- and
violation-threshold configuration calls succeed, then
`self.optimizer.set_rollback_handler(...)` resolves the attribute against
the class body and raises `AttributeError` when it is missing.  The
remaining wiring (rollback-handler callbacks and the monitor rollback
callback registration) runs only if that call succeeded. -/
def setupIntegrations (st : PipelineState) : Except PyError PipelineState :=
  if optimizedExecutorMethods.contains "set_rollback_handler" then
    .ok { st with monitor := { st.monitor with rollbackRegistered := true } }
  else
    .error (.attributeError "OptimizedExecutor" "set_rollback_handler")

/-- AegisExecutionPipeline.__init__: build the component states and run
_setup_integrations. -/
def pipelineInit (violationThreshold : Nat) (trustThreshold : Rat) :
    Except PyError PipelineState :=
  setupIntegrations
    { monitor := { violationThreshold := violationThreshold },
      trustThreshold := trustThreshold }

/-! ### Concrete scenarios and auxiliary predicates used by the theorems -/

/-- Source program `y = 0` / `x = 5 / y * y` / `print x`.  The divisor is a
variable, so static analysis only warns; the sandboxed run faults with
division by zero before producing output. -/
def c1Program : List Stmt :=
  [.assign "y" (.intLit 0),
   .assign "x" (.binOp (.binOp (.intLit 5) "/" (.ident "y")) "*" (.ident "y")),
   .print "x"]

/-- Program whose single arithmetic result, 2^31, lies outside the 32-bit
signed range. -/
def c9Program : List Stmt := [.assign "x" (.binOp (.intLit 2147483647) "+" (.intLit 1))]

/-- A pipeline state whose trust record for hash "h" is eligible for
optimized execution (score 2 ≥ 1, four runs, all successful) and whose
monitor has a low instruction threshold and a registered rollback
callback.  The monitor mode is the constructor default "sandboxed";
pipeline.execute never changes it. -/
def c2State : PipelineState :=
  { monitor := { violationThreshold := 5, rollbackRegistered := true },
    trustScores := [("h",
      { codeHash := "h", currentScore := 2, executionCount := 4,
        successfulExecutions := 4, violationCount := 0, lastExecution := some 1,
        firstExecution := some 1 })] }

/-- Three plain assignments: enough monitored operations to exceed an
instruction threshold of 5. -/
def c2Program : List Stmt :=
  [.assign "a" (.intLit 1), .assign "b" (.intLit 2), .assign "c" (.intLit 3)]

/-- Fresh pipeline state with instruction threshold 1: any run exceeds it. -/
def c10State : PipelineState := { monitor := { violationThreshold := 1 } }

def c10Program : List Stmt := [.assign "x" (.intLit 1)]

/-- A trust record with a long successful history and no violation yet. -/
def c4BaseRecord : TrustScore :=
  { codeHash := "h", currentScore := 2, executionCount := 20,
    successfulExecutions := 19, violationCount := 0, lastExecution := some 10 }

/-- A brand-new trust record (score 0). -/
def c6Record : TrustScore := { codeHash := "c6" }

/-- Fold a sequence of recorded runs (metrics, had_violations flag,
timestamp) into a trust record via TrustScore.add_execution_result. -/
def runTrustUpdates (ts : TrustScore) (runs : List (Metrics × Bool × Nat)) : TrustScore :=
  runs.foldl (fun ts r => ts.addExecutionResult r.1 r.2.1 r.2.2) ts

/-- Insert a sequence of (code hash, timestamp) pairs into a cache via
CodeCache.put (the AST payloads do not affect lookup or eviction and are
left empty). -/
def putSeq : CodeCache → List (String × Nat) → CodeCache
| c, [] => c
| c, (h, t) :: rest => putSeq (cachePut c h [] [] {} t) rest

/-- The cache entry CodeCache.put creates for hash `h` at tick `t` with
empty payloads. -/
def mkFreshEntry (h : String) (t : Nat) : CachedCode :=
  { codeHash := h, originalAst := [], optimizedAst := [], createdAt := t,
    lastAccessed := t }

/-- No `arithmetic_overflow` violation is recorded anywhere in the monitor:
not in the current metrics, not in the archived history, and not in any
queued rollback-callback invocation. -/
def NoArithViol (mon : MonitorState) : Prop :=
  (∀ met, mon.currentMetrics = some met →
    ∀ v ∈ met.violationsDetected, v.violationType ≠ "arithmetic_overflow") ∧
  (∀ met ∈ mon.executionHistory,
    ∀ v ∈ met.violationsDetected, v.violationType ≠ "arithmetic_overflow") ∧
  (∀ e ∈ mon.callbackLog, ∀ v ∈ e.1, v.violationType ≠ "arithmetic_overflow")

/-- Claim-level safety of one interpreter step: the monitor state stays
free of `arithmetic_overflow` violations and any raised security violation
is not an `arithmetic_overflow`. -/
def ArithSafe {α : Type} (p : Except RunError α × ExecState) : Prop :=
  NoArithViol p.2.monitor ∧
  ∀ v, p.1 = .error (.securityViolation v) → v.violationType ≠ "arithmetic_overflow"

/-- Monitor-level version of `ArithSafe`. -/
def MonArithSafe (p : Except RunError Unit × MonitorState) : Prop :=
  NoArithViol p.2 ∧
  ∀ v, p.1 = .error (.securityViolation v) → v.violationType ≠ "arithmetic_overflow"

/-- The monitor keeps execution mode `m` and an empty callback queue. -/
def ModeQuiet (m : String) (mon : MonitorState) : Prop :=
  mon.currentExecutionMode = m ∧ mon.callbackLog = []

/-- The outcome of running the C2 scenario through the pipeline. -/
def c2Run : Option (ExecResult × PipelineState) :=
  (pipelineExecute c2Program "h" 2 c2State).toOption

/-- The outcome of running the C10 witness scenario through the pipeline. -/
def c10Run : Option (ExecResult × PipelineState) :=
  (pipelineExecute c10Program "hh" 0 c10State).toOption

/-! ## Claim theorems -/

/-- C1.  The claim asserts that for every statically valid program the
optimizer's output is observationally equivalent to the original under the
SandboxedInterpreter.  The program `y = 0; x = 5 / y * y; print x` passes
static analysis (the variable divisor only warns), yet the original AST
faults with division by zero producing no output, while the optimizer
rewrites `5 / y * y` - via constant propagation and the `e * 0 -> 0`
simplification, which discards the faulting subexpression `5 / 0` - into
the literal 0, so the optimized AST runs to completion, prints "0" and
binds x to 0.  This contradicts the equivalence contract stated in the
optimizer's own documentation. -/
theorem c1_optimizer_changes_observable_behavior :
    (analyzeProgram c1Program).errors = [] ∧
    (optimize c1Program).optimizedAst =
      [.assign "y" (.intLit 0), .assign "x" (.intLit 0), .print "x"] ∧
    (interpExecute c1Program {}).1 = .error (.runtimeFault "Division by zero") ∧
    (interpExecute c1Program {}).2.outputBuffer = [] ∧
    (interpExecute (optimize c1Program).optimizedAst {}).1 = .ok () ∧
    (interpExecute (optimize c1Program).optimizedAst {}).2.outputBuffer = ["0"] ∧
    (interpExecute (optimize c1Program).optimizedAst {}).2.vars.lookup "x" = some 0 := by
  decide

/-- C3.  The claim asserts that constructing an AegisExecutionPipeline
completes normally and that execute always returns an ExecutionResult.
In the source, `_setup_integrations` calls
`self.optimizer.set_rollback_handler(...)`, a method the OptimizedExecutor
class does not define, so construction raises AttributeError; and a
failing static analysis raises the static analyzer's `AnalysisError`,
which is not caught by execute's handler clause, so execute propagates it. -/
theorem c3_pipeline_construction_raises :
    pipelineInit 1000 1 =
      .error (.attributeError "OptimizedExecutor" "set_rollback_handler") ∧
    pipelineExecute [.print "x"] "h" 0 {} =
      .error (.analysisError "Undefined variable: x") := by
  decide

/-- C4 counterexample.  The claim asserts that a program whose most recent
run had a violation is never eligible on the immediately following check.
In the source, a violating run sets `last_violation` and `last_execution`
to the same `datetime.now()` value and the recency test only rejects a
strictly more recent violation - so after one violation on a previously
strong record (score 2 with 19/20 successes) the record keeps score 1.5,
success rate 19/21 ≥ 0.8, and is still eligible. -/
theorem c4_eligible_immediately_after_violation :
    (c4BaseRecord.addExecutionResult {} true 11).lastViolation = some 11 ∧
    (c4BaseRecord.addExecutionResult {} true 11).lastExecution = some 11 ∧
    (c4BaseRecord.addExecutionResult {} true 11).isEligibleForOptimization 1 = true ∧
    (isTrustedForOptimization true 1
      [("h", c4BaseRecord.addExecutionResult {} true 11)] "h").1 = true := by
  decide

/-- C6 counterexample.  The claim asserts a strict score decrease after
every violating run; but the score is floored at 0, so a violating run on
a record whose score is already 0 leaves it at 0 - no strict decrease. -/
theorem c6_no_strict_decrease_at_zero :
    c6Record.currentScore = 0 ∧
    (c6Record.addExecutionResult {} true 0).currentScore = 0 ∧
    ¬ (c6Record.addExecutionResult {} true 0).currentScore < c6Record.currentScore := by
  decide

/-- C9 counterexample.  The claim asserts that an out-of-range arithmetic
result makes the RuntimeMonitor raise an `arithmetic_overflow`
SecurityViolation.  In visit_binary_op the interpreter bound-checks the
result and raises its own integer-overflow RuntimeError before
record_arithmetic_operation is ever called, so the run `x = 2147483647 + 1`
ends in a RuntimeFault and the monitor records no violation at all. -/
theorem c9_overflow_is_runtime_fault_not_monitor_violation :
    (analyzeProgram c9Program).errors = [] ∧
    (interpExecute c9Program {}).1 =
      .error (.runtimeFault "Integer overflow: 2147483648 is out of bounds") ∧
    ((interpExecute c9Program {}).2.monitor.executionHistory.all
      fun met => met.violationsDetected.isEmpty) = true ∧
    (interpExecute c9Program {}).2.monitor.callbackLog = [] := by
  decide

/-- C2.  The claim asserts that an optimized-mode run exceeding the
monitor's violation_threshold produces exactly one RollbackEvent with
violation_type "instruction_limit", clears the hash's cache entry and
leaves its trust score at 0, the pipeline having set mode and code hash on
the monitor beforehand.  In the source, pipeline.execute never calls
monitor.set_execution_mode (and construction crashes before the rollback
callback is even registered), so the monitor still believes it is in
"sandboxed" mode: on this eligible record the run is optimized, the
instruction_limit violation aborts it, yet no RollbackEvent exists, the
cache entry freshly stored for the hash is still present, and the trust
score drops only to 1.5 instead of 0. -/
theorem c2_no_rollback_event_produced :
    c2Run.map (fun p => p.1.executionMode) = some "optimized" ∧
    c2Run.map (fun p => p.1.violations.map Violation.violationType) =
      some ["instruction_limit"] ∧
    c2Run.map (fun p => p.1.success) = some true ∧
    c2Run.map (fun p => p.1.rollbackEvents) = some [] ∧
    c2Run.map (fun p => p.2.rollback.rollbackHistory) = some [] ∧
    c2Run.map (fun p => p.2.rollback.totalRollbacks) = some 0 ∧
    c2Run.map (fun p => (p.2.trustScores.lookup "h").map TrustScore.currentScore) =
      some (some (3/2)) ∧
    c2Run.map (fun p => (cacheLookup p.2.cache "h").isSome) = some true ∧
    c2Run.map (fun p => p.2.monitor.currentExecutionMode) = some "sandboxed" := by
  decide

/-- C5.  Recording a run updates the score exactly as the claim states: on
a clean run the score grows by 0.1, plus 0.05 when the (just incremented)
successful-execution count exceeds 5, plus 0.02 for fewer than 100
instructions, plus 0.02 for an execution faster than 0.1s, capped at 10;
on a violating run it shrinks by 0.5 plus 0.2 for each violation beyond
the first (counting the one just recorded), floored at 0. -/
theorem c5_trust_score_update_formula (ts : TrustScore) (m : Metrics) (hv : Bool)
    (now : Nat) :
    (ts.addExecutionResult m hv now).currentScore =
      if hv || m.violationsDetected.length > 0 then
        max 0 (ts.currentScore -
          ((1:Rat)/2 +
            if ts.violationCount + 1 > 1 then
              (1/5) * (((ts.violationCount : Rat) + 1) - 1)
            else 0))
      else
        min 10 (ts.currentScore +
          ((1:Rat)/10 + (if ts.successfulExecutions + 1 > 5 then 1/20 else 0)
            + (if m.instructionCount < 100 then 1/50 else 0)
            + (if m.executionTime < 1/10 then 1/50 else 0))) := by
  simp only [TrustScore.addExecutionResult, TrustScore.increaseTrust,
    TrustScore.decreaseTrust]
  split_ifs <;> simp_all

/-- Record-level characterization of
TrustScore.is_eligible_for_optimization. -/
theorem eligible_iff (ts : TrustScore) (threshold : Rat) :
    ts.isEligibleForOptimization threshold = true ↔
      (threshold ≤ ts.currentScore ∧ 3 ≤ ts.executionCount ∧
       (4/5 : Rat) ≤ (ts.successfulExecutions : Rat) / (ts.executionCount : Rat) ∧
       ∀ v e, ts.lastViolation = some v → ts.lastExecution = some e → v ≤ e) := by
  unfold TrustScore.isEligibleForOptimization
  rcases hv : ts.lastViolation with _ | v <;> rcases he : ts.lastExecution with _ | e <;>
    simp only [hv, he] <;> split_ifs <;> simp_all

/-- C4 (amended).  Eligibility for optimized execution holds iff the global
optimization flag is set, the score reaches the threshold, there are at
least 3 runs with a success rate of at least 0.8, and the last violation
(when both timestamps exist) is not STRICTLY more recent than the last
execution.  The original claim's corollary - that a program whose most
recent run violated is never eligible on the next check - does not hold,
because a violating run stamps `last_violation` and `last_execution` with
the same clock value (see the counterexample theorem). -/
theorem c4_eligibility_characterization (enabled : Bool) (threshold : Rat)
    (scores : List (String × TrustScore)) (codeHash : String) :
    (isTrustedForOptimization enabled threshold scores codeHash).1 = true ↔
      (enabled = true ∧
       threshold ≤ (getTrustScore scores codeHash).1.currentScore ∧
       3 ≤ (getTrustScore scores codeHash).1.executionCount ∧
       (4/5 : Rat) ≤ ((getTrustScore scores codeHash).1.successfulExecutions : Rat) /
         ((getTrustScore scores codeHash).1.executionCount : Rat) ∧
       (∀ v e, (getTrustScore scores codeHash).1.lastViolation = some v →
         (getTrustScore scores codeHash).1.lastExecution = some e → v ≤ e)) := by
  rcases hg : getTrustScore scores codeHash with ⟨ts, sc⟩
  cases enabled <;> simp [isTrustedForOptimization, hg, eligible_iff]

/-- C8.  When both operands of a binary operation optimize to integer
literals, the node is folded to a literal holding the operation's result
(Python floor division for `/`), except that a division whose right
literal is zero is returned as the unfolded binary operation so that the
fault still happens at run time. -/
theorem c8_constant_folding_division_by_zero (s s1 s2 : OptState) (e1 e2 : Expr)
    (operator : String) (a b : Int)
    (hop : operator = "+" ∨ operator = "-" ∨ operator = "*" ∨ operator = "/")
    (h1 : optVisitExpr e1 s = (.intLit a, s1))
    (h2 : optVisitExpr e2 s1 = (.intLit b, s2)) :
    (optVisitExpr (.binOp e1 operator e2) s).1 =
      if operator = "/" ∧ b = 0 then .binOp (.intLit a) "/" (.intLit b)
      else if operator = "+" then .intLit (a + b)
      else if operator = "-" then .intLit (a - b)
      else if operator = "*" then .intLit (a * b)
      else .intLit (Int.fdiv a b) := by
  rcases hop with rfl | rfl | rfl | rfl <;>
    simp [optVisitExpr, h1, h2] <;> split_ifs <;> simp_all

/-- Witness for C8 at concrete inputs: `6 / 3` folds to `2`, while `6 / 0`
is left unfolded. -/
theorem c8_constant_folding_division_by_zero_witness :
    (optVisitExpr (.binOp (.intLit 6) "/" (.intLit 3)) {}).1 = .intLit 2 ∧
    (optVisitExpr (.binOp (.intLit 6) "/" (.intLit 0)) {}).1 =
      .binOp (.intLit 6) "/" (.intLit 0) := by
  constructor
  · have h := c8_constant_folding_division_by_zero {} {} {} (.intLit 6) (.intLit 3)
      "/" 6 3 (Or.inr (Or.inr (Or.inr rfl))) rfl rfl
    simpa using h
  · have h := c8_constant_folding_division_by_zero {} {} {} (.intLit 6) (.intLit 0)
      "/" 6 0 (Or.inr (Or.inr (Or.inr rfl))) rfl rfl
    simpa using h

/-- Closed form of the score after one recorded run (shared by several
claim proofs). -/
theorem addExec_score_eq (ts : TrustScore) (m : Metrics) (hv : Bool) (now : Nat) :
    (ts.addExecutionResult m hv now).currentScore =
      if hv || m.violationsDetected.length > 0 then
        max 0 (ts.currentScore -
          ((1:Rat)/2 +
            if ts.violationCount + 1 > 1 then
              (1/5) * (((ts.violationCount : Rat) + 1) - 1)
            else 0))
      else
        min 10 (ts.currentScore +
          ((1:Rat)/10 + (if ts.successfulExecutions + 1 > 5 then 1/20 else 0)
            + (if m.instructionCount < 100 then 1/50 else 0)
            + (if m.executionTime < 1/10 then 1/50 else 0))) := by
  simp only [TrustScore.addExecutionResult, TrustScore.increaseTrust,
    TrustScore.decreaseTrust]
  split_ifs <;> simp_all

/-- A clean recorded run never lowers the score and keeps it within the
cap. -/
theorem addExec_success_mono (ts : TrustScore) (m : Metrics) (now : Nat)
    (h10 : ts.currentScore ≤ 10) (hm : m.violationsDetected = []) :
    ts.currentScore ≤ (ts.addExecutionResult m false now).currentScore ∧
    (ts.addExecutionResult m false now).currentScore ≤ 10 := by
  have h := addExec_score_eq ts m false now
  simp only [hm] at h
  norm_num at h
  rw [h]
  refine ⟨le_min h10 ?_, min_le_left _ _⟩
  split_ifs <;> linarith

/-- A violating recorded run strictly lowers a positive score. -/
theorem addExec_violation_decreases (ts : TrustScore) (m : Metrics) (hv : Bool)
    (now : Nat) (h0 : 0 < ts.currentScore)
    (hviol : hv = true ∨ m.violationsDetected ≠ []) :
    (ts.addExecutionResult m hv now).currentScore < ts.currentScore := by
  have h := addExec_score_eq ts m hv now
  have hcond : (hv || decide (m.violationsDetected.length > 0)) = true := by
    rcases hviol with hh | hh
    · simp [hh]
    · simp [List.length_pos.mpr hh]
  rw [hcond, if_pos rfl] at h
  rw [h]
  have hnn : (0:Rat) ≤ (ts.violationCount : Rat) := Nat.cast_nonneg _
  refine max_lt h0 ?_
  split_ifs <;> linarith

/-- C6 (amended).  Across any consecutive sequence of recorded runs with no
violations, the score is non-decreasing (and stays within the 10.0 cap,
an invariant the updater maintains); after a run recorded with a violation
the score is strictly lower than before whenever it was positive - when it
is already 0 the floor keeps it at 0 (see the counterexample theorem),
which is the only way the original strict-decrease claim fails. -/
theorem c6_trust_monotonicity_amended :
    (∀ (ts : TrustScore) (runs : List (Metrics × Bool × Nat)),
      ts.currentScore ≤ 10 →
      (∀ r ∈ runs, r.2.1 = false ∧ r.1.violationsDetected = []) →
      ts.currentScore ≤ (runTrustUpdates ts runs).currentScore ∧
        (runTrustUpdates ts runs).currentScore ≤ 10) ∧
    (∀ (ts : TrustScore) (m : Metrics) (hv : Bool) (now : Nat),
      0 < ts.currentScore → (hv = true ∨ m.violationsDetected ≠ []) →
      (ts.addExecutionResult m hv now).currentScore < ts.currentScore) := by
  constructor
  · intro ts runs
    induction runs generalizing ts with
    | nil => exact fun h _ => ⟨le_refl _, h⟩
    | cons r rest ih =>
      intro h10 hall
      obtain ⟨hfalse, hempty⟩ := hall r (List.mem_cons_self _ _)
      have step := addExec_success_mono ts r.1 r.2.2 h10 hempty
      have hrec : runTrustUpdates ts (r :: rest) =
          runTrustUpdates (ts.addExecutionResult r.1 r.2.1 r.2.2) rest := rfl
      rw [hrec, hfalse]
      have tail := ih (ts.addExecutionResult r.1 false r.2.2) step.2
        (fun x hx => hall x (List.mem_cons_of_mem _ hx))
      exact ⟨le_trans step.1 tail.1, tail.2⟩
  · exact addExec_violation_decreases

/-- Witness for C6 (amended): one clean run on a fresh record does not
lower the score, and a violating run on a record with score 1 strictly
lowers it. -/
theorem c6_trust_monotonicity_amended_witness :
    c6Record.currentScore ≤ (runTrustUpdates c6Record [({}, false, 0)]).currentScore ∧
    (TrustScore.addExecutionResult
      { codeHash := "w", currentScore := 1 } {} true 3).currentScore < 1 := by
  constructor
  · exact (c6_trust_monotonicity_amended.1 c6Record [({}, false, 0)]
      (by decide) (by decide)).1
  · have h := c6_trust_monotonicity_amended.2
      { codeHash := "w", currentScore := 1 } {} true 3 (by norm_num) (Or.inl rfl)
    simpa using h

/-! Helper lemmas about the cache model. -/

theorem find?_append_of_none {α : Type} {p : α → Bool} {l₁ : List α} (l₂ : List α)
    (h : l₁.find? p = none) : (l₁ ++ l₂).find? p = l₂.find? p := by
  induction l₁ with
  | nil => rfl
  | cons x xs ih =>
    have hx : ¬ p x = true := by
      have := List.find?_eq_none.mp h x (List.mem_cons_self _ _)
      simpa using this
    have hxs : xs.find? p = none := by
      rw [List.find?_eq_none] at h ⊢
      exact fun a ha => h a (List.mem_cons_of_mem _ ha)
    rw [List.cons_append, List.find?_cons_of_neg _ hx]
    exact ih hxs

theorem lruEntry_mem : ∀ {l : List CachedCode} {b : CachedCode},
    lruEntry l = some b → b ∈ l := by
  intro l
  induction l with
  | nil => intro b h; simp [lruEntry] at h
  | cons e rest ih =>
    intro b h
    rcases hr : lruEntry rest with _ | b2
    · simp [lruEntry, hr] at h
      simp [h]
    · by_cases hlt : b2.lastAccessed < e.lastAccessed
      · have : b2 = b := by simpa [lruEntry, hr, hlt] using h
        exact List.mem_cons_of_mem _ (this ▸ ih hr)
      · have : e = b := by simpa [lruEntry, hr, hlt] using h
        simp [this.symm]

theorem lruEntry_head (e0 : CachedCode) (rest : List CachedCode)
    (hmin : ∀ e ∈ rest, e0.lastAccessed < e.lastAccessed) :
    lruEntry (e0 :: rest) = some e0 := by
  rcases hr : lruEntry rest with _ | b
  · simp [lruEntry, hr]
  · have hb : ¬ b.lastAccessed < e0.lastAccessed :=
      Nat.not_lt.mpr (Nat.le_of_lt (hmin b (lruEntry_mem hr)))
    simp [lruEntry, hr, hb]

/-- Putting a fresh hash into a cache below capacity appends a fresh entry. -/
theorem cachePut_fresh (c : CodeCache) (h : String) (t : Nat)
    (hlen : c.entries.length < c.maxSize)
    (hfresh : cacheLookup c h = none) :
    cachePut c h [] [] {} t =
      { c with
          entries := c.entries ++ [mkFreshEntry h t],
          compilations := c.compilations + 1 } := by
  unfold cachePut
  rw [if_neg (by omega)]
  simp [hfresh, mkFreshEntry]

/-- putSeq distributes over append. -/
theorem putSeq_append (l₁ l₂ : List (String × Nat)) : ∀ c : CodeCache,
    putSeq c (l₁ ++ l₂) = putSeq (putSeq c l₁) l₂ := by
  induction l₁ with
  | nil => intro c; rfl
  | cons p rest ih => intro c; simpa [putSeq] using ih (cachePut c p.1 [] [] {} p.2)

/-- Filling a cache with fresh, pairwise-distinct hashes below capacity
appends the corresponding fresh entries in order and evicts nothing. -/
theorem putSeq_fill : ∀ (l : List (String × Nat)) (c : CodeCache),
    c.entries.length + l.length ≤ c.maxSize →
    (∀ p ∈ l, cacheLookup c p.1 = none) →
    (l.map Prod.fst).Nodup →
    putSeq c l =
      { c with
          entries := c.entries ++ l.map (fun p => mkFreshEntry p.1 p.2),
          compilations := c.compilations + l.length } := by
  intro l
  induction l with
  | nil => intro c _ _ _; cases c; simp [putSeq]
  | cons p rest ih =>
    intro c hlen hfresh hnd
    have hstep : cachePut c p.1 [] [] {} p.2 =
        { c with
            entries := c.entries ++ [mkFreshEntry p.1 p.2],
            compilations := c.compilations + 1 } :=
      cachePut_fresh c p.1 p.2 (by simp at hlen; omega)
        (hfresh p (List.mem_cons_self _ _))
    have hfresh2 : ∀ q ∈ rest, cacheLookup
        { c with
            entries := c.entries ++ [mkFreshEntry p.1 p.2],
            compilations := c.compilations + 1 } q.1 = none := by
      intro q hq
      have h1 : cacheLookup c q.1 = none := hfresh q (List.mem_cons_of_mem _ hq)
      have hne : p.1 ≠ q.1 := by
        simp only [List.map_cons, List.nodup_cons] at hnd
        intro he
        exact hnd.1 (he ▸ List.mem_map_of_mem Prod.fst hq)
      unfold cacheLookup at h1 ⊢
      simp only
      rw [find?_append_of_none _ h1]
      simp [mkFreshEntry, hne]
    have htail := ih
      { c with
          entries := c.entries ++ [mkFreshEntry p.1 p.2],
          compilations := c.compilations + 1 }
      (by simp at hlen ⊢; omega) hfresh2
      (by simp only [List.map_cons, List.nodup_cons] at hnd; exact hnd.2)
    calc putSeq c (p :: rest)
        = putSeq (cachePut c p.1 [] [] {} p.2) rest := rfl
      _ = putSeq
          { c with
              entries := c.entries ++ [mkFreshEntry p.1 p.2],
              compilations := c.compilations + 1 } rest := by rw [hstep]
      _ = _ := by rw [htail]; simp; omega

/-- Putting a fresh hash into a cache at capacity evicts exactly the entry
with the (strictly) oldest last_accessed and appends the fresh entry. -/
theorem cachePut_at_capacity (c : CodeCache) (e0 : CachedCode)
    (rest : List CachedCode) (hc : c.entries = e0 :: rest)
    (hlen : c.entries.length ≥ c.maxSize)
    (hmin : ∀ e ∈ rest, e0.lastAccessed < e.lastAccessed)
    (hkeys : ∀ e ∈ rest, e.codeHash ≠ e0.codeHash)
    (h : String) (t : Nat)
    (hfresh : ∀ e ∈ c.entries, e.codeHash ≠ h) :
    cachePut c h [] [] {} t =
      { c with
          entries := rest ++ [mkFreshEntry h t],
          evictions := c.evictions + 1,
          compilations := c.compilations + 1 } := by
  have hfilter : rest.filter (fun e => e.codeHash != e0.codeHash) = rest :=
    List.filter_eq_self.mpr (fun e he => by simpa [bne_iff_ne] using hkeys e he)
  have hlru : cacheEvictLru c =
      { c with entries := rest, evictions := c.evictions + 1 } := by
    unfold cacheEvictLru
    rw [hc, lruEntry_head e0 rest hmin]
    unfold cacheEvict cacheLookup
    rw [hc]
    have hfind : (e0 :: rest).find? (fun e => e.codeHash == e0.codeHash) = some e0 :=
      List.find?_cons_of_pos _ (by simp)
    simp [hfind, List.filter_cons, hfilter]
  have hfind2 : cacheLookup
      { c with entries := rest, evictions := c.evictions + 1 } h = none := by
    unfold cacheLookup
    simp only
    rw [List.find?_eq_none]
    intro e he
    simpa using hfresh e (hc ▸ List.mem_cons_of_mem _ he)
  unfold cachePut
  rw [if_pos hlen, hlru]
  simp [hfind2, mkFreshEntry]

/-- Replacing every entry carrying a hash by a fixed entry with that hash
makes the lookup return the replacement, provided the hash was present. -/
theorem find?_replace (l : List CachedCode) (h : String) (e : CachedCode)
    (he : (e.codeHash == h) = true)
    (hsome : (l.find? (fun x => x.codeHash == h)).isSome = true) :
    (l.map (fun x => if x.codeHash == h then e else x)).find?
      (fun x => x.codeHash == h) = some e := by
  induction l with
  | nil => simp at hsome
  | cons x xs ih =>
    by_cases hx : (x.codeHash == h) = true
    · simp only [List.map_cons, if_pos hx]
      exact List.find?_cons_of_pos _ he
    · simp only [List.map_cons, if_neg hx]
      rw [List.find?_cons_of_neg _ (by simpa using hx)]
      apply ih
      rw [List.find?_cons_of_neg _ (by simpa using hx)] at hsome
      exact hsome

/-- The entry stored for a hash immediately after CodeCache.put. -/
theorem cacheLookup_put_self (c : CodeCache) (h : String) (oa ob : List Stmt)
    (fl : OptFlags) (t : Nat) :
    cacheLookup (cachePut c h oa ob fl t) h =
      some { codeHash := h, originalAst := oa, optimizedAst := ob, createdAt := t,
             lastAccessed := t, accessCount := 0, optimizationFlags := fl } := by
  unfold cachePut cacheLookup
  simp only
  split_ifs with h1 h2 h3 <;> simp only
  · exact find?_replace _ h _ (by simp) (by simpa [cacheLookup] using h2)
  · rw [find?_append_of_none _ (by simpa [cacheLookup] using h2)]
    simp
  · exact find?_replace _ h _ (by simp) (by simpa [cacheLookup] using h3)
  · rw [find?_append_of_none _ (by simpa [cacheLookup] using h3)]
    simp

/-- A get performed right after a put, at the put's own tick, is a hit. -/
theorem get_after_put_hit (c : CodeCache) (h : String) (oa ob : List Stmt)
    (fl : OptFlags) (t : Nat) :
    ((cacheGet (cachePut c h oa ob fl t) h t).1).isSome = true := by
  have hl := cacheLookup_put_self c h oa ob fl t
  unfold cacheGet
  rw [hl]
  simp

/-- C7.  Starting from an empty cache of positive capacity m, inserting
m + 1 distinct code hashes at strictly increasing ticks evicts exactly one
entry - the first-inserted hash, which is the one with the oldest
last_accessed - leaving the later m hashes cached in order; and for any
cache whatsoever, a get performed immediately after a put of a hash is a
hit.  (Strictly increasing ticks make "the oldest last_accessed" unique;
`min` over a Python dict resolves ties by insertion order, which the model
mirrors.) -/
theorem c7_cache_lru_eviction_and_hit (m A : Nat) (front : List (String × Nat))
    (pl : String × Nat) (hm : 0 < m) (hlen : front.length = m)
    (hnodup : ((front ++ [pl]).map Prod.fst).Nodup)
    (hinc : ((front ++ [pl]).map Prod.snd).Pairwise (· < ·)) :
    (putSeq { maxSize := m, maxAge := A } (front ++ [pl])).evictions = 1 ∧
    (putSeq { maxSize := m, maxAge := A } (front ++ [pl])).entries.map
      CachedCode.codeHash = (front.map Prod.fst).tail ++ [pl.1] ∧
    ∀ (c : CodeCache) (h : String) (oa ob : List Stmt) (fl : OptFlags) (t : Nat),
      ((cacheGet (cachePut c h oa ob fl t) h t).1).isSome = true := by
  have hnd : (front.map Prod.fst).Nodup ∧ pl.1 ∉ front.map Prod.fst := by
    rw [List.map_append] at hnodup
    refine ⟨hnodup.of_append_left, fun hmem => ?_⟩
    exact List.disjoint_of_nodup_append hnodup hmem (by simp)
  have hsplit : putSeq { maxSize := m, maxAge := A } (front ++ [pl]) =
      cachePut (putSeq { maxSize := m, maxAge := A } front) pl.1 [] [] {} pl.2 := by
    rw [putSeq_append]
    rfl
  have hfill : putSeq { maxSize := m, maxAge := A } front =
      { entries := front.map (fun p => mkFreshEntry p.1 p.2), maxSize := m,
        maxAge := A, compilations := front.length } := by
    have h := putSeq_fill front { maxSize := m, maxAge := A }
      (by simp [hlen]) (fun p _ => rfl) hnd.1
    simpa using h
  obtain ⟨p0, frest, rfl⟩ : ∃ p0 frest, front = p0 :: frest := by
    cases front with
    | nil => simp at hlen; omega
    | cons a l => exact ⟨a, l, rfl⟩
  have hinc2 : ∀ b ∈ (frest ++ [pl]).map Prod.snd, p0.2 < b := by
    have h := hinc
    rw [List.cons_append, List.map_cons, List.pairwise_cons] at h
    exact h.1
  have hsnd : ∀ q ∈ frest, p0.2 < q.2 := fun q hq =>
    hinc2 q.2 (List.mem_map_of_mem Prod.snd (List.mem_append_left _ hq))
  have hkeysf : p0.1 ∉ frest.map Prod.fst := by
    have h1 := hnd.1
    rw [List.map_cons, List.nodup_cons] at h1
    exact h1.1
  have hcap : cachePut (putSeq { maxSize := m, maxAge := A } (p0 :: frest))
      pl.1 [] [] {} pl.2 =
      { (putSeq { maxSize := m, maxAge := A } (p0 :: frest)) with
          entries := (frest.map fun p => mkFreshEntry p.1 p.2) ++
            [mkFreshEntry pl.1 pl.2],
          evictions :=
            (putSeq { maxSize := m, maxAge := A } (p0 :: frest)).evictions + 1,
          compilations :=
            (putSeq { maxSize := m, maxAge := A } (p0 :: frest)).compilations + 1 } := by
    refine cachePut_at_capacity _ (mkFreshEntry p0.1 p0.2)
      (frest.map fun p => mkFreshEntry p.1 p.2) ?_ ?_ ?_ ?_ pl.1 pl.2 ?_
    · rw [hfill]; simp
    · rw [hfill]; simp [← hlen]
    · intro e he
      simp only [List.mem_map] at he
      obtain ⟨q, hq, rfl⟩ := he
      simpa [mkFreshEntry] using hsnd q hq
    · intro e he
      simp only [List.mem_map] at he
      obtain ⟨q, hq, rfl⟩ := he
      simp only [mkFreshEntry]
      intro hcontra
      exact hkeysf (hcontra ▸ List.mem_map_of_mem Prod.fst hq)
    · intro e he
      rw [hfill] at he
      simp only [List.mem_map] at he
      obtain ⟨q, hq, rfl⟩ := he
      simp only [mkFreshEntry]
      intro hcontra
      exact hnd.2 (hcontra ▸ List.mem_map_of_mem Prod.fst hq)
  refine ⟨?_, ?_, get_after_put_hit⟩
  · rw [hsplit, hcap, hfill]
  · rw [hsplit, hcap]
    simp [mkFreshEntry, Function.comp]

/-- Witness for C7: capacity 2, hashes h1 h2 h3 inserted at ticks 0 1 2;
h1 is evicted and h2, h3 remain; an immediate get after a put hits. -/
theorem c7_cache_lru_eviction_and_hit_witness :
    (putSeq { maxSize := 2, maxAge := 0 }
      [("h1", 0), ("h2", 1), ("h3", 2)]).evictions = 1 ∧
    (putSeq { maxSize := 2, maxAge := 0 }
      [("h1", 0), ("h2", 1), ("h3", 2)]).entries.map CachedCode.codeHash =
      ["h2", "h3"] ∧
    ((cacheGet (cachePut { maxSize := 2, maxAge := 0 } "hx" [] [] {} 7)
      "hx" 7).1).isSome = true := by
  have h := c7_cache_lru_eviction_and_hit 2 0 [("h1", 0), ("h2", 1)] ("h3", 2)
    (by decide) (by decide) (by decide) (by decide)
  exact ⟨h.1, h.2.1, h.2.2 { maxSize := 2, maxAge := 0 } "hx" [] [] {} 7⟩

/-! Helper lemmas for the arithmetic-overflow unreachability argument. -/

theorem addOperation_violations (m : Metrics) (a b : String) :
    (m.addOperation a b).violationsDetected = m.violationsDetected := by
  unfold Metrics.addOperation
  split_ifs <;> rfl

theorem addVariableAccess_violations (m : Metrics) (n : String) :
    (m.addVariableAccess n).violationsDetected = m.violationsDetected := by
  unfold Metrics.addVariableAccess
  split_ifs <;> rfl

/-- check_violations only ever produces instruction-limit or memory-limit
violations. -/
theorem checkViolations_types (mon : MonitorState) :
    ∀ v ∈ mon.checkViolations, v.violationType = "instruction_limit" ∨
      v.violationType = "memory_limit" := by
  unfold MonitorState.checkViolations
  rcases mon.currentMetrics with _ | met
  · simp
  · intro v hv
    rcases List.mem_append.mp hv with h | h <;> split_ifs at h <;> simp at h <;>
      simp [h]

/-- absorbViolations preserves freedom from arithmetic_overflow records
when the absorbed violations are themselves not overflows. -/
theorem absorb_noArith (mon : MonitorState) (vs : List Violation)
    (hmon : NoArithViol mon)
    (hvs : ∀ v ∈ vs, v.violationType ≠ "arithmetic_overflow") :
    NoArithViol (mon.absorbViolations vs) := by
  obtain ⟨h1, h2, h3⟩ := hmon
  unfold MonitorState.absorbViolations
  have hmet : ∀ met, (mon.currentMetrics.map
      (fun met => { met with violationsDetected := met.violationsDetected ++ vs }))
        = some met →
      ∀ v ∈ met.violationsDetected, v.violationType ≠ "arithmetic_overflow" := by
    intro met hm
    rcases hc : mon.currentMetrics with _ | met0 <;> rw [hc] at hm <;> simp at hm
    subst hm
    intro v hv
    rcases List.mem_append.mp hv with hl | hr
    · exact h1 met0 hc v hl
    · exact hvs v hr
  split_ifs with hcb
  · exact ⟨hmet, h2, by
      intro e he v hv
      rcases List.mem_append.mp he with hl | hr
      · exact h3 e hl v hv
      · simp at hr
        subst hr
        exact hvs v hv⟩
  · exact ⟨hmet, h2, h3⟩

theorem monSafe_checkViolationsRaise (mon : MonitorState) (h : NoArithViol mon) :
    MonArithSafe mon.checkViolationsRaise := by
  unfold MonitorState.checkViolationsRaise
  rcases hv : mon.checkViolations with _ | ⟨v, vs⟩
  · exact ⟨h, fun _ hh => by simp at hh⟩
  · have htypes : ∀ w ∈ v :: vs, w.violationType ≠ "arithmetic_overflow" := by
      intro w hw
      rcases checkViolations_types mon w (hv ▸ hw) with ht | ht <;> simp [ht]
    refine ⟨absorb_noArith mon (v :: vs) h htypes, fun w hw => ?_⟩
    simp at hw
    exact hw ▸ htypes v (List.mem_cons_self _ _)

theorem monSafe_recordOperation (mon : MonitorState) (a b : String)
    (h : NoArithViol mon) : MonArithSafe (mon.recordOperation a b) := by
  unfold MonitorState.recordOperation
  rcases hc : mon.currentMetrics with _ | met
  · exact ⟨h, fun _ hh => by simp at hh⟩
  · split_ifs with hmon
    · apply monSafe_checkViolationsRaise
      obtain ⟨h1, h2, h3⟩ := h
      refine ⟨?_, h2, h3⟩
      intro met2 hm2
      simp at hm2
      subst hm2
      rw [addOperation_violations]
      exact h1 met hc
    · exact ⟨h, fun _ hh => by simp at hh⟩

theorem monSafe_recordVariableAccess (mon : MonitorState) (n t : String)
    (h : NoArithViol mon) : MonArithSafe (mon.recordVariableAccess n t) := by
  unfold MonitorState.recordVariableAccess
  rcases hc : mon.currentMetrics with _ | met
  · exact ⟨h, fun _ hh => by simp at hh⟩
  · split_ifs with hmon
    · apply monSafe_recordOperation
      obtain ⟨h1, h2, h3⟩ := h
      refine ⟨?_, h2, h3⟩
      intro met2 hm2
      simp at hm2
      subst hm2
      rw [addVariableAccess_violations]
      exact h1 met hc
    · exact ⟨h, fun _ hh => by simp at hh⟩

theorem monSafe_recordArithStep (mon : MonitorState) (ds ms : String) (d : Int)
    (h : NoArithViol mon)
    (hcond : ¬ (d > 2147483647 || d < -2147483648) = true) :
    MonArithSafe (match mon.recordOperation "arithmetic" ds with
      | (.error e, mon2) => (.error e, mon2)
      | (.ok _, mon2) =>
        if d > 2147483647 || d < -2147483648 then
          mon2.raiseViolation "arithmetic_overflow" ms
        else (.ok (), mon2)) := by
  have hro := monSafe_recordOperation mon "arithmetic" ds h
  rcases hr : mon.recordOperation "arithmetic" ds with ⟨rr, mon2⟩
  rw [hr] at hro
  cases rr with
  | error e => exact hro
  | ok _ =>
    dsimp only
    rw [if_neg hcond]
    exact ⟨hro.1, fun _ hh => by simp at hh⟩

/-- record_arithmetic_operation never raises an overflow violation when the
result it is given lies inside the 32-bit signed range - which is the only
way the interpreter ever calls it, having bound-checked the result first. -/
theorem monSafe_recordArithmeticOperation (mon : MonitorState) (o : String)
    (l r d : Int) (h : NoArithViol mon)
    (hd : ¬ (d < minInteger || d > maxInteger) = true) :
    MonArithSafe (mon.recordArithmeticOperation o l r d) := by
  have hcond : ¬ (d > 2147483647 || d < -2147483648) = true := by
    simp only [minInteger, maxInteger, Bool.or_eq_true, decide_eq_true_eq,
      not_or] at hd ⊢
    omega
  unfold MonitorState.recordArithmeticOperation
  by_cases hmon : mon.isMonitoring = true
  · rw [if_pos hmon]
    exact monSafe_recordArithStep mon _ _ d h hcond
  · rw [if_neg hmon]
    exact ⟨h, fun _ hh => by simp at hh⟩

theorem monSafe_startMonitoring (mon : MonitorState) (h : NoArithViol mon) :
    MonArithSafe mon.startMonitoring := by
  unfold MonitorState.startMonitoring
  apply monSafe_recordOperation
  obtain ⟨_, h2, _⟩ := h
  refine ⟨?_, h2, by simp⟩
  intro met hm
  simp at hm
  subst hm
  simp

theorem monSafe_stopMonitoring (mon : MonitorState) (h : NoArithViol mon) :
    MonArithSafe mon.stopMonitoring := by
  unfold MonitorState.stopMonitoring
  rcases hc : mon.currentMetrics with _ | met
  · refine ⟨⟨by simp, h.2.1, h.2.2⟩, fun _ hh => by simp at hh⟩
  · have hro := monSafe_recordOperation mon "monitor_stop"
      "Execution monitoring stopped" h
    rcases hr : mon.recordOperation "monitor_stop" "Execution monitoring stopped"
      with ⟨rr, mon2⟩
    rw [hr] at hro
    cases rr with
    | error e => exact hro
    | ok _ =>
      dsimp only
      obtain ⟨g1, g2, g3⟩ := hro.1
      have hhist : ∀ met2 ∈ mon2.executionHistory ++
          (match mon2.currentMetrics with | some m2 => [m2] | none => []),
          ∀ v ∈ met2.violationsDetected, v.violationType ≠ "arithmetic_overflow" := by
        intro met2 hmem
        rcases List.mem_append.mp hmem with hl | hrr
        · exact g2 met2 hl
        · rcases hc2 : mon2.currentMetrics with _ | m2 <;> rw [hc2] at hrr
          · simp at hrr
          · simp at hrr
            exact hrr ▸ g1 m2 hc2
      refine ⟨⟨by simp, ?_, g3⟩, fun _ hh => by simp at hh⟩
      intro met2 hmem v hv
      split at hmem
      · exact hhist met2 (List.drop_subset _ _ hmem) v hv
      · exact hhist met2 hmem v hv

/-- Safety transfers through liftMon. -/
theorem arithSafe_liftMon (f : MonitorState → Except RunError Unit × MonitorState)
    (st : ExecState) (h : NoArithViol st.monitor)
    (hf : ∀ mon, NoArithViol mon → MonArithSafe (f mon)) :
    ArithSafe (liftMon f st) := by
  have hm := hf st.monitor h
  unfold liftMon
  rcases hr : f st.monitor with ⟨r, mon⟩
  rw [hr] at hm
  exact ⟨hm.1, hm.2⟩

/-- Safety composes through the sequencing combinator: the continuation may
assume the intermediate state is still clean. -/
theorem arithSafe_bindE {α β : Type} {step : Except RunError β × ExecState}
    {k : β → ExecState → Except RunError α × ExecState}
    (h1 : ArithSafe step)
    (h2 : ∀ b st', step = (.ok b, st') → NoArithViol st'.monitor →
      ArithSafe (k b st')) :
    ArithSafe (bindE step k) := by
  obtain ⟨r, st⟩ := step
  cases r with
  | error e =>
    exact ⟨h1.1, fun v hv =>
      h1.2 v (congrArg Except.error (Except.error.inj hv))⟩
  | ok b => exact h2 b st rfl h1.1

theorem arithSafe_checkOperationLimit (st : ExecState)
    (h : NoArithViol st.monitor) : ArithSafe (checkOperationLimit st) := by
  unfold checkOperationLimit
  dsimp only
  split_ifs <;> exact ⟨h, fun _ hh => by simp at hh⟩

theorem arithSafe_checkIntegerBounds (v : Int) (st : ExecState)
    (h : NoArithViol st.monitor) : ArithSafe (checkIntegerBounds v st) := by
  unfold checkIntegerBounds
  split_ifs <;> exact ⟨h, fun _ hh => by simp at hh⟩

/-- When checkIntegerBounds succeeds the value is inside the range and the
state is unchanged. -/
theorem checkIntegerBounds_ok {v : Int} {st st' : ExecState} {b : Unit}
    (h : checkIntegerBounds v st = (.ok b, st')) :
    ¬ (v < minInteger || v > maxInteger) = true ∧ st' = st := by
  unfold checkIntegerBounds at h
  split_ifs at h with hr
  · simp at h
  · exact ⟨hr, (congrArg Prod.snd h).symm⟩

theorem arithSafe_finishBinOp (op : String) (a b res : Int) (st : ExecState)
    (h : NoArithViol st.monitor) : ArithSafe (finishBinOp op a b res st) := by
  unfold finishBinOp
  refine arithSafe_bindE (arithSafe_checkIntegerBounds res st h) ?_
  intro _ st1 hstep _
  obtain ⟨hrange, hst⟩ := checkIntegerBounds_ok hstep
  subst hst
  refine arithSafe_bindE (arithSafe_liftMon _ st1 h
    (fun mon hm => monSafe_recordArithmeticOperation mon op a b res hm hrange)) ?_
  intro _ st2 _ h2
  exact ⟨h2, fun _ hh => by simp at hh⟩

/-- No expression evaluation can create an arithmetic_overflow record or
raise an arithmetic_overflow violation: every result reaching the monitor
hook was bound-checked by the interpreter first. -/
theorem evalExpr_arithSafe : ∀ (e : Expr) (st : ExecState),
    NoArithViol st.monitor → ArithSafe (evalExpr e st) := by
  intro e
  induction e with
  | intLit v =>
    intro st h
    refine arithSafe_bindE (arithSafe_checkOperationLimit st h) ?_
    intro _ st1 _ h1
    refine arithSafe_bindE (arithSafe_checkIntegerBounds v st1 h1) ?_
    intro _ st2 _ h2
    refine arithSafe_bindE (arithSafe_liftMon _ st2 h2
      (fun mon hm => monSafe_recordOperation mon _ _ hm)) ?_
    intro _ st3 _ h3
    exact ⟨h3, fun _ hh => by simp at hh⟩
  | ident n =>
    intro st h
    refine arithSafe_bindE (arithSafe_checkOperationLimit st h) ?_
    intro _ st1 _ h1
    refine arithSafe_bindE (arithSafe_liftMon _ st1 h1
      (fun mon hm => monSafe_recordVariableAccess mon n "read" hm)) ?_
    intro _ st2 _ h2
    rcases st2.vars.lookup n with _ | v
    · exact ⟨h2, fun _ hh => by simp at hh⟩
    · exact ⟨h2, fun _ hh => by simp at hh⟩
  | binOp l op r ihl ihr =>
    intro st h
    refine arithSafe_bindE (arithSafe_checkOperationLimit st h) ?_
    intro _ st1 _ h1
    refine arithSafe_bindE (ihl st1 h1) ?_
    intro lv st2 _ h2
    refine arithSafe_bindE (ihr st2 h2) ?_
    intro rv st3 _ h3
    split_ifs
    · exact arithSafe_finishBinOp op lv rv (lv + rv) st3 h3
    · exact arithSafe_finishBinOp op lv rv (lv - rv) st3 h3
    · exact arithSafe_finishBinOp op lv rv (lv * rv) st3 h3
    · exact ⟨h3, fun _ hh => by simp at hh⟩
    · exact arithSafe_finishBinOp op lv rv (Int.fdiv lv rv) st3 h3
    · exact ⟨h3, fun _ hh => by simp at hh⟩

theorem execStmt_arithSafe (stmt : Stmt) (st : ExecState)
    (h : NoArithViol st.monitor) : ArithSafe (execStmt stmt st) := by
  cases stmt with
  | assign identifier expression =>
    refine arithSafe_bindE (arithSafe_checkOperationLimit st h) ?_
    intro _ st1 _ h1
    refine arithSafe_bindE (arithSafe_liftMon _ st1 h1
      (fun mon hm => monSafe_recordOperation mon _ _ hm)) ?_
    intro _ st2 _ h2
    refine arithSafe_bindE (evalExpr_arithSafe expression st2 h2) ?_
    intro v st3 _ h3
    refine arithSafe_bindE (arithSafe_checkIntegerBounds v st3 h3) ?_
    intro _ st4 _ h4
    refine arithSafe_bindE (arithSafe_liftMon _ st4 h4
      (fun mon hm => monSafe_recordVariableAccess mon identifier "write" hm)) ?_
    intro _ st5 _ h5
    exact ⟨h5, fun _ hh => by simp at hh⟩
  | print identifier =>
    refine arithSafe_bindE (arithSafe_checkOperationLimit st h) ?_
    intro _ st1 _ h1
    refine arithSafe_bindE (arithSafe_liftMon _ st1 h1
      (fun mon hm => monSafe_recordOperation mon _ _ hm)) ?_
    intro _ st2 _ h2
    rcases st2.vars.lookup identifier with _ | v
    · exact ⟨h2, fun _ hh => by simp at hh⟩
    · refine arithSafe_bindE (arithSafe_liftMon _ st2 h2
        (fun mon hm => monSafe_recordVariableAccess mon identifier "read" hm)) ?_
      intro _ st3 _ h3
      exact ⟨h3, fun _ hh => by simp at hh⟩

theorem execStmts_arithSafe : ∀ (ast : List Stmt) (st : ExecState),
    NoArithViol st.monitor → ArithSafe (execStmts ast st) := by
  intro ast
  induction ast with
  | nil => intro st h; exact ⟨h, fun _ hh => by simp [execStmts] at hh⟩
  | cons stmt rest ih =>
    intro st h
    refine arithSafe_bindE (arithSafe_checkOperationLimit st h) ?_
    intro _ st1 _ h1
    refine arithSafe_bindE (execStmt_arithSafe stmt st1 h1) ?_
    intro _ st2 _ h2
    exact ih st2 h2

/-- interpExecute unfolded into the sequencing combinator. -/
theorem interpExecute_eq (ast : List Stmt) (st : ExecState) :
    interpExecute ast st =
      bindE (liftMon MonitorState.startMonitoring { st with operationCount := 0 })
        (fun _ st1 =>
          bindE (liftMon MonitorState.stopMonitoring (execStmts ast st1).2)
            (fun _ st3 => ((execStmts ast st1).1, st3))) := by
  unfold interpExecute bindE
  dsimp only
  rcases liftMon MonitorState.startMonitoring { st with operationCount := 0 }
    with ⟨r0, st0⟩
  cases r0 with
  | error e => rfl
  | ok u =>
    dsimp only
    rcases hex : execStmts ast st0 with ⟨r1, st1⟩
    rcases liftMon MonitorState.stopMonitoring st1 with ⟨r2, st2⟩
    cases r2 <;> rfl

theorem interpExecute_arithSafe (ast : List Stmt) (st : ExecState)
    (h : NoArithViol st.monitor) : ArithSafe (interpExecute ast st) := by
  rw [interpExecute_eq]
  refine arithSafe_bindE (arithSafe_liftMon MonitorState.startMonitoring
    { st with operationCount := 0 } h monSafe_startMonitoring) ?_
  intro _ st1 _ h1
  have hmid := execStmts_arithSafe ast st1 h1
  refine arithSafe_bindE (arithSafe_liftMon MonitorState.stopMonitoring
    (execStmts ast st1).2 hmid.1 monSafe_stopMonitoring) ?_
  intro _ st3 _ h3
  exact ⟨h3, hmid.2⟩

/-- C9 (amended).  The monitor's arithmetic_overflow detection is
unreachable from interpreted arithmetic: visit_binary_op bound-checks the
result - raising the interpreter's own integer-overflow RuntimeError -
before record_arithmetic_operation is invoked, so an execution starting
with no arithmetic_overflow records never produces one, and no
SecurityViolation of that type is ever raised by a run.  (The
counterexample theorem shows the concrete divergence from the original
claim.) -/
theorem c9_monitor_overflow_unreachable (ast : List Stmt) (st : ExecState)
    (h : NoArithViol st.monitor) :
    NoArithViol (interpExecute ast st).2.monitor ∧
    ∀ v, (interpExecute ast st).1 = .error (.securityViolation v) →
      v.violationType ≠ "arithmetic_overflow" :=
  interpExecute_arithSafe ast st h

/-- Witness for C9 (amended), at the overflowing program and a fresh
interpreter state. -/
theorem c9_monitor_overflow_unreachable_witness :
    NoArithViol (interpExecute c9Program {}).2.monitor ∧
    ∀ v, (interpExecute c9Program {}).1 = .error (.securityViolation v) →
      v.violationType ≠ "arithmetic_overflow" :=
  c9_monitor_overflow_unreachable c9Program {}
    ⟨fun met hm => by simp at hm, fun met hm => by simp at hm,
     fun e he => by simp at he⟩

/-- A rollback-callback invocation never touches the pipeline's
successful_executions counter. -/
theorem applyRollbackCallback_successfulExecutions (st : PipelineState)
    (e : List Violation × String) :
    (applyRollbackCallback st e).successfulExecutions = st.successfulExecutions := by
  rcases e with ⟨vs, ch⟩
  cases vs with
  | nil => rfl
  | cons v vs =>
    simp only [applyRollbackCallback]
    split_ifs <;> rfl

theorem foldl_applyRollbackCallback_succ (l : List (List Violation × String)) :
    ∀ st : PipelineState,
      (l.foldl applyRollbackCallback st).successfulExecutions
        = st.successfulExecutions := by
  induction l with
  | nil => intro st; rfl
  | cons e l ih =>
    intro st
    rw [List.foldl_cons, ih, applyRollbackCallback_successfulExecutions]

/-- C10.  Whenever a SecurityViolation aborts the executor phase of
pipeline.execute, the method still returns an ExecutionResult with
success = True: the violation only appears in the violations list and in
the returned metrics, and the pipeline's successful_executions counter is
incremented exactly as on a clean run. -/
theorem c10_violation_aborted_run_reports_success
    (program : List Stmt) (sourceHash : String) (now : Nat) (st : PipelineState)
    (v : Violation)
    (ha : (analyzeProgram program).errors = [])
    (hv : (pipelineAfterAnalysis program sourceHash now st).1
      = .error (.securityViolation v)) :
    ∃ res st', pipelineExecute program sourceHash now st = .ok (res, st') ∧
      res.success = true ∧ res.violations = [v] ∧
      v ∈ res.metrics.violationsDetected ∧
      st'.successfulExecutions = st.successfulExecutions + 1 := by
  have hguard : (!(analyzeProgram program).errors.isEmpty) = false := by
    rw [ha]; rfl
  rcases hpa : pipelineAfterAnalysis program sourceHash now st
    with ⟨r, es, bm, cache, oe, st2, em⟩
  have hsucc : st2.successfulExecutions = st.successfulExecutions := by
    have h1 : (pipelineAfterAnalysis program sourceHash now st).2.2.2.2.2.1 = st2 := by
      rw [hpa]
    rw [← h1]
    rfl
  rw [hpa] at hv
  dsimp only at hv
  subst hv
  unfold pipelineExecute
  dsimp only
  rw [hguard, hpa]
  dsimp only
  refine ⟨_, _, rfl, rfl, rfl, ?_, ?_⟩
  · exact List.mem_append_right _ (List.mem_singleton_self v)
  · show (es.monitor.callbackLog.foldl applyRollbackCallback
        { st2 with monitor := es.monitor, cache := cache,
                   optimizedExecutions := oe }).successfulExecutions + 1
      = st.successfulExecutions + 1
    rw [foldl_applyRollbackCallback_succ]
    dsimp only
    rw [hsucc]

/-- Witness for C10 at the threshold-1 pipeline state: a single-assignment
program trips the instruction limit, yet the run is reported successful. -/
theorem c10_violation_aborted_run_reports_success_witness :
    (analyzeProgram c10Program).errors = [] ∧
    ∃ res st', pipelineExecute c10Program "hh" 0 c10State = .ok (res, st') ∧
      res.success = true ∧
      res.violations =
        [⟨"instruction_limit", "Instruction count 3 exceeds limit 1"⟩] ∧
      (⟨"instruction_limit", "Instruction count 3 exceeds limit 1"⟩ : Violation)
        ∈ res.metrics.violationsDetected ∧
      st'.successfulExecutions = c10State.successfulExecutions + 1 :=
  ⟨by decide,
   c10_violation_aborted_run_reports_success c10Program "hh" 0 c10State
     ⟨"instruction_limit", "Instruction count 3 exceeds limit 1"⟩
     (by decide) (by decide)⟩

end Aegis
